import Mathlib

/-!
# The MLFQ scheduling core of `proc.c`

A shallow embedding of the process table, the three run queues and the
operations of `src/proc.c` (`append`, `deleteFirstNode`, `wakeup1`, `kill`,
`wait`, `exit`, `allocproc`, `fork`, `scheduler`), followed by the theorems
that settle the claims about them.

Conventions of the embedding.

* `ptable.proc[NPROC]` is a `List proc`; `NPROC` (declared in `param.h`) is
  the length of the list.
* A `struct proc*` / `void*` value is an `Addr`: the null pointer, the address
  of a slot of the process table, or some other kernel address.
* `struct QueueNode` objects live in a node store; a `struct QueueNode*` is a
  natural number, `0` being the null pointer and `a + 1` the address of cell
  `a` of the store.  C gives no meaning to a load or store through the null
  pointer or through an address that holds no node: here it does not produce
  a state, it is a `Fault`.
* `int` fields are `Int`; the only arithmetic that can overflow (`nextpid++`,
  `boostCounter--`) wraps to 32 bits through `wrap32`.
* The spinlock, the page tables (`switchuvm`, `switchkvm`), the trap frame
  and the console line of the dispatcher do not influence any modelled field
  and are left out.
* `Reachable` collects the states between complete operations, starting at
  boot; `PidReach` follows the process table through allocations and reaps,
  an allocation being observed when `allocproc` releases the lock.
-/

namespace ProcC

/-! ## Data model -/

/-- Values of `enum procstate`. -/
inductive procstate
  | UNUSED | EMBRYO | SLEEPING | RUNNABLE | RUNNING | ZOMBIE
deriving DecidableEq, Repr

/-- Pointer values used for `struct proc*` and for `void* chan`. -/
inductive Addr
  | null
  | slot (i : Nat)
  | other (a : Nat)
deriving DecidableEq, Repr

/-- The fields of `struct proc` that `proc.c` reads or writes in the modelled
operations. `name` is the byte array `char name[16]`. -/
structure proc where
  sz : Nat
  pgdir : Nat
  kstack : Nat
  state : procstate
  pid : Int
  parent : Addr
  chan : Addr
  killed : Int
  name : List Nat
  queueName : Int
  quantumSize : Int
deriving DecidableEq, Repr

/-- The fields of `struct QueueNode` used by `proc.c`. -/
structure QueueNode where
  data : Addr
  boostCounter : Int
  next : Nat
  quantumCounter : Int
deriving DecidableEq, Repr

/-- What stops the kernel instead of producing a next state. -/
inductive Fault
  | nullDeref
  | badAddr
  | outOfFuel
  | panic
deriving DecidableEq, Repr

/-- Outcome of code that may fault. -/
inductive Res (α : Type)
  | ok (a : α)
  | fault (f : Fault)
deriving DecidableEq, Repr

/-- Sequencing of code that may fault. -/
def Res.bind {α β : Type} (r : Res α) (k : α → Res β) : Res β :=
  match r with
  | .ok a => k a
  | .fault f => .fault f

/-- The globals of `proc.c` together with the logs of the external calls
`kfree`, `freevm` and `swtch`. -/
structure State where
  ptable : List proc
  nodes : List QueueNode
  Queue1 : Nat
  Queue2 : Nat
  Queue3 : Nat
  initproc : Addr
  nextpid : Int
  proc : Addr
  kfreed : List Nat
  vmfreed : List Nat
  switched : List Addr
deriving DecidableEq, Repr

/-- Wrap an integer to the range of a 32-bit `int`. -/
def wrap32 (x : Int) : Int :=
  (x + 2147483648) % 4294967296 - 2147483648

/-! ## Node store -/

/-- Read `*a` for a `struct QueueNode* a`. -/
def loadNode (nodes : List QueueNode) (a : Nat) : Res QueueNode :=
  match a with
  | 0 => .fault .nullDeref
  | k + 1 =>
    match nodes[k]? with
    | some n => .ok n
    | none => .fault .badAddr

/-- Update `*a` for a `struct QueueNode* a`. -/
def storeNode (nodes : List QueueNode) (a : Nat) (f : QueueNode → QueueNode) :
    Res (List QueueNode) :=
  match a with
  | 0 => .fault .nullDeref
  | k + 1 =>
    match nodes[k]? with
    | some n => .ok (nodes.set k (f n))
    | none => .fault .badAddr

/-- A field write `a->field = v` on the node store of a state. -/
def State.writeNode (s : State) (a : Nat) (f : QueueNode → QueueNode) : Res State :=
  (storeNode s.nodes a f).bind fun ns => .ok { s with nodes := ns }

/-- Head pointer of the queue of a level (`Queue1`, `Queue2`, `Queue3`);
null for any other number. -/
def State.queue (s : State) (level : Int) : Nat :=
  if level = 1 then s.Queue1
  else if level = 2 then s.Queue2
  else if level = 3 then s.Queue3
  else 0

/-- The addresses of the nodes of the list that starts at pointer `p`, in
order: `IsQueue nodes p l` says that following `next` from `p` visits exactly
the non-null addresses `l` and then reaches the null pointer. -/
def IsQueue (nodes : List QueueNode) : Nat → List Nat → Prop
  | p, [] => p = 0
  | p, a :: l =>
    p = a ∧ a ≠ 0 ∧
      match nodes[a - 1]? with
      | some n => IsQueue nodes n.next l
      | none => False

instance instDecidableIsQueue (nodes : List QueueNode) :
    (p : Nat) → (l : List Nat) → Decidable (IsQueue nodes p l)
  | p, [] => inferInstanceAs (Decidable (p = 0))
  | p, a :: l =>
    match h : nodes[a - 1]? with
    | some n =>
      match instDecidableIsQueue nodes n.next l with
      | isTrue hq =>
        if hp : p = a ∧ a ≠ 0 then
          isTrue (by unfold IsQueue; rw [h]; exact ⟨hp.1, hp.2, hq⟩)
        else
          isFalse (by unfold IsQueue; rw [h]; exact fun hh => hp ⟨hh.1, hh.2.1⟩)
      | isFalse hq =>
        isFalse (by unfold IsQueue; rw [h]; exact fun hh => hq hh.2.2)
    | none => isFalse (by unfold IsQueue; rw [h]; exact fun hh => hh.2.2)

/-! ## Run-queue manager -/

/-- The tail scan `while (p->next != 0) p = p->next;` of `append`. The scan
of a list that runs in a cycle does not end; `fuel` bounds the number of
nodes visited and is taken larger than the node store. -/
def lastNode (nodes : List QueueNode) : Nat → Nat → Res Nat
  | 0, _ => .fault .outOfFuel
  | fuel + 1, p =>
    (loadNode nodes p).bind fun n =>
      if n.next ≠ 0 then lastNode nodes fuel n.next else .ok p

/-- The block of `append` for one level: set `quantumCounter`, then make the
node the head of an empty queue or link it behind the last node. `head` and
`setHead` read and assign the global of that level. -/
def appendAtLevel (s : State) (newNode : Nat) (quantum : Int)
    (head : State → Nat) (setHead : State → Nat → State) : Res State :=
  (s.writeNode newNode fun n => { n with quantumCounter := quantum }).bind fun s =>
    if head s = 0 then .ok (setHead s newNode)
    else
      (lastNode s.nodes (s.nodes.length + 1) (head s)).bind fun p =>
        s.writeNode p fun n => { n with next := newNode }

/-- `void append(struct proc* new_data, int priority)`. The node pointer
is initialised to `0`: the call to the allocator is commented out in the
source (`struct QueueNode* newNode = 0; //= malloc(...)`). -/
def append (s : State) (new_data : Addr) (priority : Int) : Res State :=
  let newNode : Nat := 0
  (s.writeNode newNode fun n => { n with data := new_data }).bind fun s =>
  (s.writeNode newNode fun n => { n with boostCounter := 3 }).bind fun s =>
  (s.writeNode newNode fun n => { n with next := 0 }).bind fun s =>
  (if priority = 1 then
      appendAtLevel s newNode 1 (fun s => s.Queue1) (fun s q => { s with Queue1 := q })
    else .ok s).bind fun s =>
  (if priority = 2 then
      appendAtLevel s newNode 3 (fun s => s.Queue2) (fun s q => { s with Queue2 := q })
    else .ok s).bind fun s =>
  if priority = 3 then
    appendAtLevel s newNode 9 (fun s => s.Queue3) (fun s q => { s with Queue3 := q })
  else .ok s

/-- `void deleteFirstNode(int priority)`: each block returns at once when
its queue is empty and otherwise advances the head pointer to
`head->next`. The node that was the head is not freed. -/
def deleteFirstNode (s : State) (priority : Int) : Res State :=
  if priority = 1 ∧ s.Queue1 = 0 then .ok s
  else
    (if priority = 1 then
        (loadNode s.nodes s.Queue1).bind fun n => .ok { s with Queue1 := n.next }
      else .ok s).bind fun s =>
    if priority = 2 ∧ s.Queue2 = 0 then .ok s
    else
      (if priority = 2 then
          (loadNode s.nodes s.Queue2).bind fun n => .ok { s with Queue2 := n.next }
        else .ok s).bind fun s =>
      if priority = 3 ∧ s.Queue3 = 0 then .ok s
      else
        if priority = 3 then
          (loadNode s.nodes s.Queue3).bind fun n => .ok { s with Queue3 := n.next }
        else .ok s

/-! ## Process table -/

/-- Read `*a` for a `struct proc* a`. -/
def loadProc (t : List proc) (a : Addr) : Res proc :=
  match a with
  | .null => .fault .nullDeref
  | .other _ => .fault .badAddr
  | .slot i =>
    match t[i]? with
    | some p => .ok p
    | none => .fault .badAddr

/-- Update `*a` for a `struct proc* a`. -/
def storeProc (t : List proc) (a : Addr) (f : proc → proc) : Res (List proc) :=
  match a with
  | .null => .fault .nullDeref
  | .other _ => .fault .badAddr
  | .slot i =>
    match t[i]? with
    | some p => .ok (t.set i (f p))
    | none => .fault .badAddr

/-- The loop of `wakeup1`: `n` slots remain, `i` is the index of `p`. -/
def wakeup1Loop (chan : Addr) : Nat → Nat → List proc → List proc
  | 0, _, t => t
  | n + 1, i, t =>
    match t[i]? with
    | none => t
    | some p =>
      wakeup1Loop chan n (i + 1)
        (if p.state = .SLEEPING ∧ p.chan = chan then
          t.set i { p with state := .RUNNABLE }
        else t)

/-- `static void wakeup1(void* chan)`. -/
def wakeup1 (chan : Addr) (t : List proc) : List proc :=
  wakeup1Loop chan t.length 0 t

/-- `void wakeup(void* chan)`: `wakeup1` between `acquire` and `release`. -/
def wakeup (chan : Addr) (t : List proc) : List proc :=
  wakeup1 chan t

/-- The loop of `kill`; the second component is the value returned. -/
def killLoop (pid : Int) : Nat → Nat → List proc → List proc × Int
  | 0, _, t => (t, -1)
  | n + 1, i, t =>
    match t[i]? with
    | none => (t, -1)
    | some p =>
      if p.pid = pid then
        let p1 : proc := { p with killed := 1 }
        let p2 : proc := if p1.state = .SLEEPING then { p1 with state := .RUNNABLE } else p1
        (t.set i p2, 0)
      else killLoop pid n (i + 1) t

/-- `int kill(int pid)`: the table after the call and the value returned. -/
def kill (pid : Int) (t : List proc) : List proc × Int :=
  killLoop pid t.length 0 t

/-- The bytes of a C string: those before the first NUL. -/
def cstring (bytes : List Nat) : List Nat :=
  bytes.takeWhile fun b => b ≠ 0

/-- How one pass of the `for (;;)` body of `wait` ends. -/
inductive WaitResult
  | returned (v : Int)
  | sleeps
deriving DecidableEq, Repr

/-- The scan of `wait` for zombie children: `n` slots remain, `i` is the
index of `p`. Yields the state, `havekids`, and the pid when a child was
reaped (the function returns from inside the loop in that case). -/
def waitLoop : Nat → Nat → Bool → State → State × Bool × Option Int
  | 0, _, havekids, s => (s, havekids, none)
  | n + 1, i, havekids, s =>
    match s.ptable[i]? with
    | none => (s, havekids, none)
    | some p =>
      if p.parent ≠ s.proc then waitLoop n (i + 1) havekids s
      else if p.state = .ZOMBIE then
        let pid := p.pid
        ({ s with
            kfreed := s.kfreed ++ [p.kstack]
            vmfreed := s.vmfreed ++ [p.pgdir]
            ptable := s.ptable.set i
              { p with kstack := 0, state := .UNUSED, pid := 0, parent := .null,
                       name := p.name.set 0 0, killed := 0 } },
          true, some pid)
      else waitLoop n (i + 1) true s

/-- `void sleep(void* chan, struct spinlock* lk)` up to its call of `sched`;
the two tests that precede are `proc == 0` and `lk == 0`. -/
def sleep (s : State) (chan : Addr) (lkIsNull : Bool) : Res State :=
  if s.proc = .null then .fault .panic
  else if lkIsNull then .fault .panic
  else
    (storeProc s.ptable s.proc fun p =>
        { p with chan := chan, state := .SLEEPING }).bind fun t =>
      .ok { s with ptable := t }

/-- One pass of the body of the `for (;;)` of `wait`: the scan, then the
test `!havekids || proc->killed`, then `sleep(proc, &ptable.lock)` up to its
call of `sched`. -/
def waitPass (s : State) : Res (State × WaitResult) :=
  match waitLoop s.ptable.length 0 false s with
  | (s1, _, some pid) => .ok (s1, .returned pid)
  | (s1, havekids, none) =>
    if havekids = false then .ok (s1, .returned (-1))
    else
      (loadProc s1.ptable s1.proc).bind fun me =>
        if me.killed ≠ 0 then .ok (s1, .returned (-1))
        else (sleep s1 s1.proc false).bind fun s2 => .ok (s2, .sleeps)

/-- The reparenting loop of `exit`: `n` slots remain, `i` is the index of
`p`. -/
def exitLoop (cur initproc : Addr) : Nat → Nat → List proc → List proc
  | 0, _, t => t
  | n + 1, i, t =>
    match t[i]? with
    | none => t
    | some p =>
      if p.parent = cur then
        let t1 := t.set i { p with parent := initproc }
        exitLoop cur initproc n (i + 1)
          (if p.state = .ZOMBIE then wakeup1 initproc t1 else t1)
      else exitLoop cur initproc n (i + 1) t

/-- The part of `exit` from the test `proc == initproc` to the call of
`sched`, without the calls into the file system. -/
def exitLocked (s : State) : Res State :=
  if s.proc = s.initproc then .fault .panic
  else
    (loadProc s.ptable s.proc).bind fun me =>
      let t1 := wakeup1 me.parent s.ptable
      let t2 := exitLoop s.proc s.initproc t1.length 0 t1
      (storeProc t2 s.proc fun p => { p with state := .ZOMBIE }).bind fun t3 =>
        .ok { s with ptable := t3 }

/-- What `wakeup1 chan` does to one record. -/
def wake (chan : Addr) (p : proc) : proc :=
  if p.state = .SLEEPING ∧ p.chan = chan then { p with state := .RUNNABLE } else p

/-! ## Process creation -/

/-- The scan of `allocproc` for an UNUSED slot: `n` slots remain, `i` is
the index of `p`. -/
def findUnused : Nat → Nat → List proc → Option Nat
  | 0, _, _ => none
  | n + 1, i, t =>
    match t[i]? with
    | none => none
    | some p => if p.state = .UNUSED then some i else findUnused n (i + 1) t

/-- `static struct proc* allocproc(void)`; `kalloc` is the value that the
call `kalloc()` returns (0 when no page is free). Yields the pointer
returned, null for the value 0. -/
def allocproc (s : State) (kalloc : Nat) : Res (State × Addr) :=
  match findUnused s.ptable.length 0 s.ptable with
  | none => .ok (s, .null)
  | some i =>
    (storeProc s.ptable (.slot i) fun p =>
        { p with state := .EMBRYO, pid := s.nextpid, queueName := 1,
                 quantumSize := 10 }).bind fun t =>
    let s : State := { s with ptable := t, nextpid := wrap32 (s.nextpid + 1) }
    (storeProc s.ptable (.slot i) fun p => { p with kstack := kalloc }).bind fun t =>
    let s : State := { s with ptable := t }
    if kalloc = 0 then
      (storeProc s.ptable (.slot i) fun p => { p with state := .UNUSED }).bind fun t =>
        .ok ({ s with ptable := t }, .null)
    else
      (append s (.slot i) 1).bind fun s => .ok (s, .slot i)

/-- `safestrcpy(dst, src, n)`: copies at most `n - 1` bytes of the string
`src` and a terminating NUL into `dst`. -/
def safestrcpy (dst src : List Nat) (n : Nat) : List Nat :=
  if n = 0 then dst
  else
    let c := (cstring src).take (n - 1)
    c ++ [0] ++ dst.drop (c.length + 1)

/-- `void userinit(void)`; `setupkvm` is the value returned by `setupkvm()`
and `pgsize` the constant `PGSIZE`. -/
def userinit (s : State) (kalloc setupkvm pgsize : Nat) : Res State :=
  (allocproc s kalloc).bind fun r =>
    let s : State := { r.1 with initproc := r.2 }
    let p := r.2
    (storeProc s.ptable p fun q => { q with pgdir := setupkvm }).bind fun t =>
    if setupkvm = 0 then .fault .panic
    else
      (storeProc t p fun q =>
          { q with sz := pgsize,
                   name := safestrcpy q.name [105, 110, 105, 116, 99, 111, 100, 101]
                     q.name.length,
                   state := .RUNNABLE }).bind fun t =>
        .ok { s with ptable := t }

/-- `int fork(void)`; `kalloc` and `copyuvm` are the values returned by the
calls `kalloc()` and `copyuvm(...)` (0 on failure). Yields the value
returned. -/
def fork (s : State) (kalloc copyuvm : Nat) : Res (State × Int) :=
  (allocproc s kalloc).bind fun r =>
    let s := r.1
    let np := r.2
    if np = .null then .ok (s, -1)
    else
      (loadProc s.ptable s.proc).bind fun me =>
      (storeProc s.ptable np fun p => { p with pgdir := copyuvm }).bind fun t =>
      let s : State := { s with ptable := t }
      if copyuvm = 0 then
        (loadProc s.ptable np).bind fun n =>
        (storeProc s.ptable np fun p =>
            { p with kstack := 0, state := .UNUSED }).bind fun t =>
          .ok ({ s with ptable := t, kfreed := s.kfreed ++ [n.kstack] }, -1)
      else
        (storeProc s.ptable np fun p =>
            { p with sz := me.sz, parent := s.proc,
                     name := safestrcpy p.name me.name me.name.length }).bind fun t =>
        let s : State := { s with ptable := t }
        (loadProc s.ptable np).bind fun n =>
        (storeProc s.ptable np fun p => { p with state := .RUNNABLE }).bind fun t =>
          .ok ({ s with ptable := t }, n.pid)

/-! ## Giving up the CPU -/

/-- `void yield(void)` up to its call of `sched`. -/
def yield (s : State) : Res State :=
  (storeProc s.ptable s.proc fun p => { p with state := .RUNNABLE }).bind fun t =>
    .ok { s with ptable := t }

/-! ## Dispatcher -/

/-- What a process does between the `swtch` that resumes it and the `swtch`
that brings the dispatcher back: calls of `fork`, and any other code. Code
other than `append` and `deleteFirstNode` assigns neither the queue heads
nor a field of a node, and the log of switches is not a program variable. -/
inductive Action
  | fork (kalloc copyuvm : Nat)
  | other (f : State → Res State)

/-- Effect of one action of the running process. -/
def runAction (a : Action) (s : State) : Res State :=
  match a with
  | .fork kalloc copyuvm => (fork s kalloc copyuvm).bind fun r => .ok r.1
  | .other f =>
    (f s).bind fun s1 =>
      .ok { s1 with nodes := s.nodes, Queue1 := s.Queue1, Queue2 := s.Queue2,
                    Queue3 := s.Queue3, switched := s.switched }

/-- Effect of the actions of the running process, in order. -/
def runActions : List Action → State → Res State
  | [], s => .ok s
  | a :: rest, s => (runAction a s).bind (runActions rest)

/-- `swtch(&cpu->scheduler, proc->context)` seen from the dispatcher: the
switch is logged, the process `proc` runs (`beh` gives what it does from the
state it is resumed in) and control comes back. -/
def swtch (beh : State → List Action) (s : State) : Res State :=
  let s1 : State := { s with switched := s.switched ++ [s.proc] }
  runActions (beh s1) s1

/-- One hand-over of the CPU to the head of a queue, from `proc = Q->data`
to `switchkvm()`; `head` reads the global of the level. -/
def dispatch (beh : State → List Action) (head : State → Nat) (s : State) : Res State :=
  (loadNode s.nodes (head s)).bind fun n =>
  let s : State := { s with proc := n.data }
  (loadNode s.nodes (head s)).bind fun n =>
  (storeProc s.ptable n.data fun p => { p with state := .RUNNING }).bind fun t =>
  let s : State := { s with ptable := t }
  (loadProc s.ptable s.proc).bind fun _ =>
  swtch beh s

/-- The loop `for (pri = 0; pri < k; pri++)` around the hand-over. -/
def ticks (beh : State → List Action) (head : State → Nat) : Nat → State → Res State
  | 0, s => .ok s
  | k + 1, s => (dispatch beh head s).bind (ticks beh head k)

/-- How one evaluation of `while (Q != 0) { ... }` goes on: the loop is
left, the body ends in `continue` with nothing changed, or the body runs to
its end. -/
inductive LoopStep
  | exit
  | spin
  | round (s : State)
deriving DecidableEq, Repr

/-- One evaluation of the loop `while (Queue1 != 0)` of `scheduler`. -/
def level1Iter (beh : State → List Action) (s : State) : Res LoopStep :=
  if s.Queue1 = 0 then .ok .exit
  else
    (loadNode s.nodes s.Queue1).bind fun n =>
    (loadProc s.ptable n.data).bind fun p =>
    if p.state ≠ .RUNNABLE then .ok .spin
    else
      (dispatch beh (fun s => s.Queue1) s).bind fun s =>
      let s : State := { s with proc := .null }
      (loadNode s.nodes s.Queue1).bind fun n =>
      (append s n.data 2).bind fun s =>
      (deleteFirstNode s 1).bind fun s => .ok (.round s)

/-- One evaluation of the loop `while (Queue2 != 0)` of `scheduler`. -/
def level2Iter (beh : State → List Action) (s : State) : Res LoopStep :=
  if s.Queue2 = 0 then .ok .exit
  else
    (loadNode s.nodes s.Queue2).bind fun n =>
    (loadProc s.ptable n.data).bind fun p =>
    if p.state ≠ .RUNNABLE then .ok .spin
    else
      (ticks beh (fun s => s.Queue2) 3 s).bind fun s =>
      let s : State := { s with proc := .null }
      (loadNode s.nodes s.Queue2).bind fun n =>
      (append s n.data 3).bind fun s =>
      (deleteFirstNode s 2).bind fun s => .ok (.round s)

/-- One evaluation of the loop `while (Queue3 != 0)` of `scheduler`. -/
def level3Iter (beh : State → List Action) (s : State) : Res LoopStep :=
  if s.Queue3 = 0 then .ok .exit
  else
    (loadNode s.nodes s.Queue3).bind fun n =>
    (loadProc s.ptable n.data).bind fun p =>
    if p.state ≠ .RUNNABLE then .ok .spin
    else
      (ticks beh (fun s => s.Queue3) 9 s).bind fun s =>
      let s : State := { s with proc := .null }
      (loadNode s.nodes s.Queue3).bind fun n =>
      if n.boostCounter > 0 then
        (loadNode s.nodes s.Queue3).bind fun n =>
        (append s n.data 3).bind fun s =>
        (deleteFirstNode s 3).bind fun s =>
        (s.writeNode s.Queue3 fun n =>
            { n with boostCounter := wrap32 (n.boostCounter - 1) }).bind fun s =>
          .ok (.round s)
      else
        (s.writeNode s.Queue3 fun n => { n with boostCounter := 3 }).bind fun s =>
        (loadNode s.nodes s.Queue3).bind fun n =>
        (append s n.data 1).bind fun s =>
        (deleteFirstNode s 3).bind fun s => .ok (.round s)

/-- The loop of `scheduler` that the dispatcher is in. -/
inductive Pc
  | level1
  | level2
  | level3
deriving DecidableEq, Repr

/-- A point of the execution of `scheduler`: the dispatcher is about to
evaluate the condition of the `while` loop of level `pc` in state `s`. -/
structure Config where
  pc : Pc
  s : State
deriving DecidableEq, Repr

/-- One evaluation of the current `while` loop of `scheduler`: a loop that
is left is followed by the loop of the next level, the third by the first
(next turn of `for (;;)`). -/
def schedStep (beh : State → List Action) (c : Config) : Res Config :=
  match c.pc with
  | .level1 =>
    (level1Iter beh c.s).bind fun r =>
      match r with
      | .exit => .ok { pc := .level2, s := c.s }
      | .spin => .ok c
      | .round s => .ok { pc := .level1, s := s }
  | .level2 =>
    (level2Iter beh c.s).bind fun r =>
      match r with
      | .exit => .ok { pc := .level3, s := c.s }
      | .spin => .ok c
      | .round s => .ok { pc := .level2, s := s }
  | .level3 =>
    (level3Iter beh c.s).bind fun r =>
      match r with
      | .exit => .ok { pc := .level1, s := c.s }
      | .spin => .ok c
      | .round s => .ok { pc := .level3, s := s }

/-- The execution of `scheduler` for `n` loop evaluations. -/
def schedRun (beh : State → List Action) : Nat → Config → Res Config
  | 0, c => .ok c
  | n + 1, c => (schedStep beh c).bind (schedRun beh n)

/-- The dispatcher is about to start a dispatch round: the queue of the
current loop is not empty and its head references a RUNNABLE process. -/
def beginsRound (c : Config) : Bool :=
  let q := match c.pc with
    | .level1 => c.s.Queue1
    | .level2 => c.s.Queue2
    | .level3 => c.s.Queue3
  match loadNode c.s.nodes q with
  | .ok n =>
    match loadProc c.s.ptable n.data with
    | .ok p => decide (p.state = .RUNNABLE)
    | .fault _ => false
  | .fault _ => false

/-! ## Concrete tables and states -/

/-- An UNUSED slot as static storage starts out: every field zero. -/
def exUnused : proc :=
  { sz := 0, pgdir := 0, kstack := 0, state := .UNUSED, pid := 0, parent := .null,
    chan := .null, killed := 0, name := List.replicate 16 0, queueName := 0,
    quantumSize := 0 }

/-- The init process (pid 1), asleep in `wait` on its own address. -/
def exInit : proc :=
  { exUnused with sz := 4096, pgdir := 7, kstack := 11, state := .SLEEPING, pid := 1,
                  chan := .slot 0, queueName := 1, quantumSize := 10 }

/-- A RUNNABLE child of init (pid 2). -/
def exA : proc :=
  { exUnused with sz := 4096, pgdir := 8, kstack := 12, state := .RUNNABLE, pid := 2,
                  parent := .slot 0, queueName := 1, quantumSize := 10 }

/-- A ZOMBIE child (pid 3) of the process in slot 1. -/
def exZ : proc :=
  { exUnused with sz := 4096, pgdir := 9, kstack := 13, state := .ZOMBIE, pid := 3,
                  parent := .slot 1, queueName := 1, quantumSize := 10 }

/-- A state whose process table is `t`, with no node and empty queues. -/
def exState (t : List proc) (cur : Addr) : State :=
  { ptable := t, nodes := [], Queue1 := 0, Queue2 := 0, Queue3 := 0,
    initproc := .slot 0, nextpid := 4, proc := cur, kfreed := [], vmfreed := [],
    switched := [] }

/-- Init and A; a single node references A and is the whole queue of
level 1. -/
def exLevel1 : State :=
  { exState [exInit, exA] .null with
    nodes := [{ data := .slot 1, boostCounter := 3, next := 0, quantumCounter := 1 }]
    Queue1 := 1 }

/-- As `exLevel1`, the node being the whole queue of level 2. -/
def exLevel2 : State :=
  { exState [exInit, exA] .null with
    nodes := [{ data := .slot 1, boostCounter := 3, next := 0, quantumCounter := 3 }]
    Queue2 := 1 }

/-- As `exLevel1`, the node being the whole queue of level 3, with aging
budget `b`. -/
def exLevel3 (b : Int) : State :=
  { exState [exInit, exA] .null with
    nodes := [{ data := .slot 1, boostCounter := b, next := 0, quantumCounter := 9 }]
    Queue3 := 1 }

/-- Two nodes in level 1 (for A, then for init) and one node in level 2. -/
def exTwoNodes : State :=
  { exState [{ exInit with state := .RUNNABLE }, exA] .null with
    nodes := [{ data := .slot 1, boostCounter := 3, next := 2, quantumCounter := 1 },
              { data := .slot 0, boostCounter := 3, next := 0, quantumCounter := 1 },
              { data := .slot 1, boostCounter := 3, next := 0, quantumCounter := 3 }]
    Queue1 := 1
    Queue2 := 3 }

/-- A process that, each time it is resumed, runs until the timer makes it
call `yield`: it stays RUNNABLE and touches no queue. -/
def yielding : State → List Action :=
  fun _ => [.other yield]

/-- The queues that the loops of the higher levels left empty. -/
def higherLevelsEmpty (c : Config) : Prop :=
  (c.pc = .level2 → c.s.Queue1 = 0) ∧
    (c.pc = .level3 → c.s.Queue1 = 0 ∧ c.s.Queue2 = 0)

/-! ## States between operations -/

/-- The state at boot: `n` slots, all UNUSED with every field zero, no node,
empty queues, `nextpid = 1`, no current process. -/
def bootState (n : Nat) : State :=
  { ptable := List.replicate n exUnused, nodes := [], Queue1 := 0, Queue2 := 0,
    Queue3 := 0, initproc := .null, nextpid := 1, proc := .null, kfreed := [],
    vmfreed := [], switched := [] }

/-- The part of `allocproc` under the lock: the scan and the block `found:`
up to `release(&ptable.lock)`. Yields the state at the release and the index
of the slot taken, or nothing when no slot is UNUSED. -/
def allocSlot (s : State) : Option (State × Nat) :=
  match findUnused s.ptable.length 0 s.ptable with
  | none => none
  | some i =>
    match s.ptable[i]? with
    | none => none
    | some p =>
      some ({ s with
              ptable := s.ptable.set i
                { p with state := .EMBRYO, pid := s.nextpid, queueName := 1,
                         quantumSize := 10 }
              nextpid := wrap32 (s.nextpid + 1) }, i)

/-- The addresses met when following `next` from the pointer `p`, up to the
null pointer (or an address without node, or `fuel` nodes). -/
def queueAddrs (nodes : List QueueNode) : Nat → Nat → List Nat
  | 0, _ => []
  | fuel + 1, p =>
    match loadNode nodes p with
    | .ok n => p :: queueAddrs nodes fuel n.next
    | .fault _ => []

/-- The process references (`data`) of the nodes of the three queues, level 1
first. -/
def queueRefs (s : State) : List Addr :=
  ((queueAddrs s.nodes (s.nodes.length + 1) s.Queue1 ++
      queueAddrs s.nodes (s.nodes.length + 1) s.Queue2 ++
      queueAddrs s.nodes (s.nodes.length + 1) s.Queue3).map fun a =>
    match loadNode s.nodes a with
    | .ok n => n.data
    | .fault _ => .null)

/-- The states in which the kernel can be between two operations of
`proc.c`, the dispatcher being between two evaluations of its loops. The
per-CPU variable `proc` is allowed any value when an operation starts. -/
inductive Reachable : State → Prop
  | boot (n : Nat) : Reachable (bootState n)
  | setProc {s : State} (a : Addr) : Reachable s → Reachable { s with proc := a }
  | allocproc {s s' : State} {r : Addr} (kalloc : Nat) :
      Reachable s → allocproc s kalloc = .ok (s', r) → Reachable s'
  | userinit {s s' : State} (kalloc setupkvm pgsize : Nat) :
      Reachable s → userinit s kalloc setupkvm pgsize = .ok s' → Reachable s'
  | fork {s s' : State} {r : Int} (kalloc copyuvm : Nat) :
      Reachable s → fork s kalloc copyuvm = .ok (s', r) → Reachable s'
  | scheduler {s : State} {c : Config} (beh : State → List Action) (n : Nat) :
      Reachable s → schedRun beh n { pc := .level1, s := s } = .ok c → Reachable c.s
  | yield {s s' : State} : Reachable s → yield s = .ok s' → Reachable s'
  | sleep {s s' : State} (chan : Addr) (lkIsNull : Bool) :
      Reachable s → sleep s chan lkIsNull = .ok s' → Reachable s'
  | wakeup {s : State} (chan : Addr) :
      Reachable s → Reachable { s with ptable := wakeup chan s.ptable }
  | kill {s : State} (pid : Int) :
      Reachable s → Reachable { s with ptable := (kill pid s.ptable).1 }
  | exit {s s' : State} : Reachable s → exitLocked s = .ok s' → Reachable s'
  | wait {s s' : State} {r : WaitResult} :
      Reachable s → waitPass s = .ok (s', r) → Reachable s'

/-- The largest value of an `int`. -/
def intMax : Int := 2147483647

/-- The states of the process table reached by allocations and reaps.
An allocation is the locked part of `allocproc` (`alloc`), followed, when
the kernel stack or the address-space copy fails, by the assignment
`state = UNUSED` (`unuse`) and otherwise by writes that leave the slot live
and its pid alone (`live`). The complete calls are steps as well. Every
allocation starts with `nextpid` below the largest `int`. -/
inductive PidReach : State → Prop
  | boot (n : Nat) : PidReach (bootState n)
  | setProc {s : State} (a : Addr) : PidReach s → PidReach { s with proc := a }
  | alloc {s s' : State} {i : Nat} :
      PidReach s → s.nextpid < intMax → allocSlot s = some (s', i) → PidReach s'
  | unuse {s : State} {t : List proc} (i : Nat) :
      PidReach s →
      storeProc s.ptable (.slot i) (fun p => { p with state := .UNUSED }) = .ok t →
      PidReach { s with ptable := t }
  | live {s : State} (i : Nat) (p p' : proc) :
      PidReach s → s.ptable[i]? = some p → p.state ≠ .UNUSED →
      p'.state ≠ .UNUSED → p'.pid = p.pid →
      PidReach { s with ptable := s.ptable.set i p' }
  | reap {s s' : State} {v : Int} :
      PidReach s → waitPass s = .ok (s', .returned v) → PidReach s'
  | allocproc {s s' : State} {r : Addr} (kalloc : Nat) :
      PidReach s → s.nextpid < intMax → allocproc s kalloc = .ok (s', r) → PidReach s'
  | fork {s s' : State} {r : Int} (kalloc copyuvm : Nat) :
      PidReach s → s.nextpid < intMax → fork s kalloc copyuvm = .ok (s', r) →
      PidReach s'

/-- No two live slots share a pid, and the pid of a live slot is positive
and below `nextpid`. -/
def PidsUnique (s : State) : Prop :=
  1 ≤ s.nextpid ∧
    (∀ (i : Nat) (p : proc), s.ptable[i]? = some p → p.state ≠ .UNUSED →
      0 < p.pid ∧ p.pid < s.nextpid) ∧
    (∀ (i j : Nat) (p q : proc), s.ptable[i]? = some p → s.ptable[j]? = some q →
      p.state ≠ .UNUSED → q.state ≠ .UNUSED → p.pid = q.pid → i = j)

/-- The head pointer of the queue whose loop the dispatcher is in. -/
def Config.head (c : Config) : Nat :=
  match c.pc with
  | .level1 => c.s.Queue1
  | .level2 => c.s.Queue2
  | .level3 => c.s.Queue3

/-- A process that calls `sleep` the first time it is resumed and then stays
in the state the dispatcher gave it. -/
def sleepsOnce : State → List Action :=
  fun s => if s.switched.length = 1 then [.other fun s => sleep s (.other 99) false] else []

/-- A process that calls `exit` the first time it is resumed and then stays
in the state the dispatcher gave it. -/
def exitsOnce : State → List Action :=
  fun s => if s.switched.length = 1 then [.other exitLocked] else []

/-- A free slot next to a running init: the state in which init calls
`fork`. -/
def exForking : State :=
  exState [{ exInit with state := .RUNNING }, exUnused] (.slot 0)

/-- The boot state with two slots after the locked part of one
allocation: slot 0 is EMBRYO with pid 1. -/
def exPid1 : State :=
  ((allocSlot (bootState 2)).map Prod.fst).getD (bootState 2)

/-- After a second allocation: slot 1 is EMBRYO with pid 2. -/
def exPid2 : State :=
  ((allocSlot exPid1).map Prod.fst).getD exPid1

/-- After the first allocation failed at its kernel stack: slot 0 is UNUSED
again and keeps the pid 1. -/
def exPid3 : State :=
  { exPid2 with
    ptable := exPid2.ptable.set 0
      { exUnused with pid := 1, queueName := 1, quantumSize := 10 } }

/-- After a third allocation, which takes slot 0 again, with pid 3. -/
def exPid4 : State :=
  ((allocSlot exPid3).map Prod.fst).getD exPid3

/-- As `exTwoNodes`, the process A at the head of level 1 being asleep
and init, behind it, RUNNABLE. -/
def exBlocked : State :=
  { exTwoNodes with
    ptable := [{ exInit with state := .RUNNABLE }, { exA with state := .SLEEPING }] }

/-! ## The loops of the dispatcher, the store being a parameter

C does not say what a store through the null pointer does. `append` and the
loops above take it as a fault. The definitions below are the same code
with the store left open (`write`), so that the other outcome, a machine on
which address 0 is mapped and the store changes no node, can be followed as
well (`State.writeNodeLenient`). -/

/-- The block of `append` for one level, the stores being done by `write`. -/
def appendAtLevelWith (write : State → Nat → (QueueNode → QueueNode) → Res State)
    (s : State) (newNode : Nat) (quantum : Int)
    (head : State → Nat) (setHead : State → Nat → State) : Res State :=
  (write s newNode fun n => { n with quantumCounter := quantum }).bind fun s =>
    if head s = 0 then .ok (setHead s newNode)
    else
      (lastNode s.nodes (s.nodes.length + 1) (head s)).bind fun p =>
        write s p fun n => { n with next := newNode }

/-- `void append(struct proc* new_data, int priority)`, the stores being
done by `write`. -/
def appendWith (write : State → Nat → (QueueNode → QueueNode) → Res State)
    (s : State) (new_data : Addr) (priority : Int) : Res State :=
  let newNode : Nat := 0
  (write s newNode fun n => { n with data := new_data }).bind fun s =>
  (write s newNode fun n => { n with boostCounter := 3 }).bind fun s =>
  (write s newNode fun n => { n with next := 0 }).bind fun s =>
  (if priority = 1 then
      appendAtLevelWith write s newNode 1 (fun s => s.Queue1)
        (fun s q => { s with Queue1 := q })
    else .ok s).bind fun s =>
  (if priority = 2 then
      appendAtLevelWith write s newNode 3 (fun s => s.Queue2)
        (fun s q => { s with Queue2 := q })
    else .ok s).bind fun s =>
  if priority = 3 then
    appendAtLevelWith write s newNode 9 (fun s => s.Queue3)
      (fun s q => { s with Queue3 := q })
  else .ok s

/-- The loop that follows the loop of a level in `scheduler`. -/
def Pc.next : Pc → Pc
  | .level1 => .level2
  | .level2 => .level3
  | .level3 => .level1

/-- The table `[exInit, exA, exUnused]` after `kill(0)`, with empty queues. -/
def exAfterKillZero : State :=
  exState (kill 0 [exInit, exA, exUnused]).1 .null

/-! ## Theorems: run-queue manager -/

theorem isQueue_unique (nodes : List QueueNode) :
    ∀ (l l' : List Nat) (p : Nat), IsQueue nodes p l → IsQueue nodes p l' → l = l'
  | [], [], _, _, _ => rfl
  | [], a :: l', p, h, h' => by
    simp only [IsQueue] at h h'
    exact absurd (h'.1.symm.trans h) h'.2.1
  | a :: l, [], p, h, h' => by
    simp only [IsQueue] at h h'
    exact absurd (h.1.symm.trans h') h.2.1
  | a :: l, b :: l', p, h, h' => by
    simp only [IsQueue] at h h'
    have hab : a = b := h.1.symm.trans h'.1
    subst hab
    rcases h with ⟨-, -, h⟩
    rcases h' with ⟨-, -, h'⟩
    cases hn : nodes[a - 1]? with
    | none => simp [hn] at h
    | some n =>
      simp only [hn] at h h'
      rw [isQueue_unique nodes l l' n.next h h']

theorem loadNode_of_isQueue {nodes : List QueueNode} {p a : Nat} {l : List Nat}
    (h : IsQueue nodes p (a :: l)) :
    ∃ n, loadNode nodes p = .ok n ∧ IsQueue nodes n.next l := by
  simp only [IsQueue] at h
  obtain ⟨hp, ha, h⟩ := h
  subst hp
  cases p with
  | zero => exact absurd rfl ha
  | succ k =>
    simp only [Nat.add_sub_cancel] at h
    cases hn : nodes[k]? with
    | none => simp [hn] at h
    | some n =>
      simp only [hn] at h
      exact ⟨n, by simp [loadNode, hn], h⟩

theorem append_fault (s : State) (p : Addr) (L : Int) :
    append s p L = .fault .nullDeref := by
  simp [append, State.writeNode, storeNode, Res.bind]

theorem Res.bind_eq_ok {α β : Type} (r : Res α) (k : α → Res β) (b : β) :
    r.bind k = .ok b ↔ ∃ a, r = .ok a ∧ k a = .ok b := by
  cases r with
  | ok a => simp [Res.bind]
  | fault f => simp [Res.bind]

/-- C4 (on the code): `append` dereferences the null node pointer in its
first statement, for every state, process and level; it produces no state,
so no node is linked into any queue. -/
theorem append_null_node_faults (s : State) (p : Addr) (L : Int) :
    append s p L = .fault .nullDeref ∧
      ∀ s', append s p L ≠ .ok s' := by
  rw [append_fault]
  exact ⟨rfl, fun _ h => by cases h⟩

/-- C5: for a level `L` in 1..3 whose queue holds the nodes `l`,
`deleteFirstNode L` succeeds, the queue of `L` then holds `l.tail` (the head
is removed, the rest keeps its order), an empty queue leaves the state as it
is, and the node store, the process table, the two other queue heads and all
other globals are unchanged. -/
theorem deleteFirstNode_removes_head (s : State) (L : Int) (l : List Nat)
    (hL : L = 1 ∨ L = 2 ∨ L = 3) (hq : IsQueue s.nodes (s.queue L) l) :
    ∃ s', deleteFirstNode s L = .ok s' ∧
      IsQueue s'.nodes (s'.queue L) l.tail ∧
      (l = [] → s' = s) ∧
      s'.nodes = s.nodes ∧ s'.ptable = s.ptable ∧
      (∀ L', L' ≠ L → s'.queue L' = s.queue L') ∧
      s'.initproc = s.initproc ∧ s'.nextpid = s.nextpid ∧ s'.proc = s.proc ∧
      s'.kfreed = s.kfreed ∧ s'.vmfreed = s.vmfreed ∧ s'.switched = s.switched := by
  cases l with
  | nil =>
    have h0 : s.queue L = 0 := hq
    refine ⟨s, ?_, ?_, fun _ => rfl, rfl, rfl, fun _ _ => rfl, rfl, rfl, rfl, rfl, rfl, rfl⟩
    · rcases hL with h | h | h <;> subst h <;> simp [State.queue] at h0 <;>
        simp [deleteFirstNode, h0, Res.bind]
    · simpa [IsQueue] using h0
  | cons a l =>
    obtain ⟨n, hn, hrest⟩ := loadNode_of_isQueue hq
    have hne : s.queue L ≠ 0 := by
      simp only [IsQueue] at hq
      rw [hq.1]; exact hq.2.1
    rcases hL with h | h | h <;> subst h <;> simp [State.queue] at hn hne
    · refine ⟨{ s with Queue1 := n.next }, ?_, ?_, ?_, rfl, rfl, ?_, rfl, rfl, rfl, rfl, rfl, rfl⟩
      · simp [deleteFirstNode, hne, hn, Res.bind]
      · simpa [State.queue] using hrest
      · intro h; cases h
      · intro L' hL'; simp [State.queue, hL']
    · refine ⟨{ s with Queue2 := n.next }, ?_, ?_, ?_, rfl, rfl, ?_, rfl, rfl, rfl, rfl, rfl, rfl⟩
      · simp [deleteFirstNode, hne, hn, Res.bind]
      · simpa [State.queue] using hrest
      · intro h; cases h
      · intro L' hL'; simp [State.queue, hL']
    · refine ⟨{ s with Queue3 := n.next }, ?_, ?_, ?_, rfl, rfl, ?_, rfl, rfl, rfl, rfl, rfl, rfl⟩
      · simp [deleteFirstNode, hne, hn, Res.bind]
      · simpa [State.queue] using hrest
      · intro h; cases h
      · intro L' hL'; simp [State.queue, hL']

/-! ## Theorems: process table -/

theorem wakeup1Loop_getElem? (chan : Addr) :
    ∀ (n i : Nat) (t : List proc) (j : Nat),
      (wakeup1Loop chan n i t)[j]? =
        if i ≤ j ∧ j < i + n then (t[j]?).map (wake chan) else t[j]?
  | 0, i, t, j => by
    have : ¬ (i ≤ j ∧ j < i + 0) := by omega
    rw [if_neg this]
    rfl
  | n + 1, i, t, j => by
    unfold wakeup1Loop
    cases hi : t[i]? with
    | none =>
      simp only
      split
      · rename_i h
        have hlen : t.length ≤ i := List.getElem?_eq_none_iff.mp hi
        have : t[j]? = none := List.getElem?_eq_none_iff.mpr (by omega)
        simp [this]
      · rfl
    | some p =>
      simp only
      rw [wakeup1Loop_getElem? chan n (i + 1) _ j]
      have hlt : i < t.length := (List.getElem?_eq_some_iff.mp hi).1
      by_cases hji : j = i
      · subst hji
        have h1 : ¬ (j + 1 ≤ j ∧ j < j + 1 + n) := by omega
        have h2 : j ≤ j ∧ j < j + (n + 1) := by omega
        rw [if_neg h1, if_pos h2, hi]
        by_cases hc : p.state = .SLEEPING ∧ p.chan = chan
        · simp [hc, wake, hlt]
        · simp [hc, wake, hi]
      · have hset : ∀ q : proc, (t.set i q)[j]? = t[j]? := by
          intro q
          rw [List.getElem?_set_ne (Ne.symm hji)]
        have hsame : (if p.state = .SLEEPING ∧ p.chan = chan then
            t.set i { p with state := .RUNNABLE } else t)[j]? = t[j]? := by
          split
          · exact hset _
          · rfl
        rw [hsame]
        by_cases hr : i + 1 ≤ j ∧ j < i + 1 + n
        · have : i ≤ j ∧ j < i + (n + 1) := by omega
          rw [if_pos hr, if_pos this]
        · have : ¬ (i ≤ j ∧ j < i + (n + 1)) := by omega
          rw [if_neg hr, if_neg this]

theorem wakeup1_getElem? (chan : Addr) (t : List proc) (j : Nat) :
    (wakeup1 chan t)[j]? = (t[j]?).map (wake chan) := by
  unfold wakeup1
  rw [wakeup1Loop_getElem?]
  split
  · rfl
  · rename_i h
    have : t[j]? = none := List.getElem?_eq_none_iff.mpr (by omega)
    simp [this]

theorem wakeup1_eq_map (chan : Addr) (t : List proc) :
    wakeup1 chan t = t.map (wake chan) := by
  apply List.ext_getElem?
  intro j
  rw [wakeup1_getElem?, List.getElem?_map]

/-- C6: after `wakeup chan` (and `wakeup1 chan`) the table has the same
slots, slot `j` holds the old record with `state` set to RUNNABLE when the old
record was SLEEPING with `chan` equal to the given channel, and holds exactly
the old record in every other case. -/
theorem wakeup_wakes_exactly_matching (chan : Addr) (t : List proc) (j : Nat) :
    (wakeup chan t)[j]? =
        (t[j]?).map (fun p =>
          if p.state = .SLEEPING ∧ p.chan = chan then { p with state := .RUNNABLE } else p) ∧
      wakeup chan t = wakeup1 chan t ∧
      (wakeup chan t).length = t.length := by
  refine ⟨?_, rfl, ?_⟩
  · exact wakeup1_getElem? chan t j
  · simp [wakeup, wakeup1_eq_map]

theorem killLoop_no_match (pid : Int) :
    ∀ (n i : Nat) (t : List proc),
      (∀ j q, i ≤ j → t[j]? = some q → q.pid ≠ pid) → killLoop pid n i t = (t, -1)
  | 0, _, _, _ => rfl
  | n + 1, i, t, h => by
    unfold killLoop
    cases hi : t[i]? with
    | none => rfl
    | some p =>
      simp only
      rw [if_neg (h i p (Nat.le_refl i) hi)]
      exact killLoop_no_match pid n (i + 1) t fun j q hj hq => h j q (by omega) hq

theorem killLoop_first_match (pid : Int) :
    ∀ (n i0 : Nat) (t : List proc) (i : Nat) (p : proc),
      i0 ≤ i → i < i0 + n → t[i]? = some p → p.pid = pid →
      (∀ j q, i0 ≤ j → j < i → t[j]? = some q → q.pid ≠ pid) →
      killLoop pid n i0 t =
        (t.set i { p with killed := 1,
                          state := if p.state = .SLEEPING then .RUNNABLE else p.state }, 0)
  | 0, i0, _, i, _, h1, h2, _, _, _ => by omega
  | n + 1, i0, t, i, p, h1, h2, hp, hpid, hfirst => by
    unfold killLoop
    by_cases hii : i0 = i
    · subst hii
      simp only [hp, hpid, if_true]
      by_cases hs : p.state = .SLEEPING <;> simp [hs]
    · cases h0 : t[i0]? with
      | none =>
        have hlen : t.length ≤ i0 := List.getElem?_eq_none_iff.mp h0
        have : t[i]? = none := List.getElem?_eq_none_iff.mpr (by omega)
        rw [this] at hp
        cases hp
      | some q =>
        simp only
        rw [if_neg (hfirst i0 q (Nat.le_refl i0) (by omega) h0)]
        exact killLoop_first_match pid n (i0 + 1) t i p (by omega) (by omega) hp hpid
          fun j r hj hji hr => hfirst j r (by omega) hji hr

/-- C7: when slot `i` is the only slot of the table whose `pid` field is the
given pid, `kill` returns 0 and the table differs from the old one in slot `i`
only, where `killed` is 1 and `state` is RUNNABLE if it was SLEEPING and as
before otherwise; all other fields of that record are the old ones. -/
theorem kill_existing_pid (t : List proc) (pid : Int) (i : Nat) (p : proc)
    (hp : t[i]? = some p) (hpid : p.pid = pid)
    (huniq : ∀ j q, t[j]? = some q → q.pid = pid → j = i) :
    kill pid t =
      (t.set i { p with killed := 1,
                        state := if p.state = .SLEEPING then .RUNNABLE else p.state }, 0) := by
  have hlt : i < t.length := (List.getElem?_eq_some_iff.mp hp).1
  exact killLoop_first_match pid t.length 0 t i p (Nat.zero_le i) (by omega) hp hpid
    fun j q _ hji hq hq' => by
      have := huniq j q hq hq'
      omega

theorem kill_absent_pid (t : List proc) (pid : Int)
    (habs : ∀ p ∈ t, p.pid ≠ pid) :
    kill pid t = (t, -1) :=
  killLoop_no_match pid t.length 0 t fun j q _ hq =>
    habs q (List.mem_iff_getElem?.mpr ⟨j, hq⟩)

theorem cstring_set_zero (name : List Nat) : cstring (name.set 0 0) = [] := by
  cases name <;> simp [cstring, List.takeWhile]

theorem waitLoop_reaps_first :
    ∀ (n i0 : Nat) (hk : Bool) (s : State) (i : Nat) (p : proc),
      i0 ≤ i → i < i0 + n → s.ptable[i]? = some p → p.parent = s.proc →
      p.state = .ZOMBIE →
      (∀ j q, i0 ≤ j → j < i → s.ptable[j]? = some q → q.parent = s.proc →
        q.state ≠ .ZOMBIE) →
      waitLoop n i0 hk s =
        ({ s with
            kfreed := s.kfreed ++ [p.kstack]
            vmfreed := s.vmfreed ++ [p.pgdir]
            ptable := s.ptable.set i
              { p with kstack := 0, state := .UNUSED, pid := 0, parent := .null,
                       name := p.name.set 0 0, killed := 0 } },
          true, some p.pid)
  | 0, i0, _, _, i, _, h1, h2, _, _, _, _ => by omega
  | n + 1, i0, hk, s, i, p, h1, h2, hp, hpar, hz, hfirst => by
    unfold waitLoop
    by_cases hii : i0 = i
    · subst hii
      simp [hp, hpar, hz]
    · cases h0 : s.ptable[i0]? with
      | none =>
        have hlen : s.ptable.length ≤ i0 := List.getElem?_eq_none_iff.mp h0
        have : s.ptable[i]? = none := List.getElem?_eq_none_iff.mpr (by omega)
        rw [this] at hp
        cases hp
      | some q =>
        simp only
        have rec := fun hk' => waitLoop_reaps_first n (i0 + 1) hk' s i p (by omega) (by omega)
          hp hpar hz fun j r hj hji hr => hfirst j r (by omega) hji hr
        by_cases hq : q.parent = s.proc
        · have hnz : q.state ≠ .ZOMBIE := hfirst i0 q (Nat.le_refl i0) (by omega) h0 hq
          simp only [hq, ne_eq, not_true_eq_false, if_false, hnz]
          exact rec true
        · simp only [ne_eq, hq, not_false_eq_true, if_true]
          exact rec hk

theorem waitLoop_no_zombie :
    ∀ (n i0 : Nat) (hk : Bool) (s : State),
      (∀ j q, i0 ≤ j → s.ptable[j]? = some q → q.parent = s.proc → q.state ≠ .ZOMBIE) →
      ∃ hk', waitLoop n i0 hk s = (s, hk', none) ∧
        (hk = true → hk' = true) ∧
        ((∃ j q, i0 ≤ j ∧ j < i0 + n ∧ s.ptable[j]? = some q ∧ q.parent = s.proc) →
          hk' = true) ∧
        ((∀ j q, i0 ≤ j → s.ptable[j]? = some q → q.parent ≠ s.proc) → hk' = hk)
  | 0, i0, hk, s, _ =>
    ⟨hk, rfl, id, fun ⟨j, _, h1, h2, _⟩ => by omega, fun _ => rfl⟩
  | n + 1, i0, hk, s, hnz => by
    unfold waitLoop
    cases h0 : s.ptable[i0]? with
    | none =>
      refine ⟨hk, rfl, id, ?_, fun _ => rfl⟩
      rintro ⟨j, q, h1, -, hq, -⟩
      have hlen : s.ptable.length ≤ i0 := List.getElem?_eq_none_iff.mp h0
      have : s.ptable[j]? = none := List.getElem?_eq_none_iff.mpr (by omega)
      rw [this] at hq
      cases hq
    | some q =>
      simp only
      by_cases hq : q.parent = s.proc
      · have hqz : q.state ≠ .ZOMBIE := hnz i0 q (Nat.le_refl i0) h0 hq
        simp only [hq, ne_eq, not_true_eq_false, if_false, hqz]
        obtain ⟨hk', he, ht, _, _⟩ :=
          waitLoop_no_zombie n (i0 + 1) true s fun j r hj hr => hnz j r (by omega) hr
        exact ⟨hk', he, fun _ => ht rfl, fun _ => ht rfl,
          fun hno => absurd hq (hno i0 q (Nat.le_refl i0) h0)⟩
      · simp only [ne_eq, hq, not_false_eq_true, if_true]
        obtain ⟨hk', he, ht, hex, hsame⟩ :=
          waitLoop_no_zombie n (i0 + 1) hk s fun j r hj hr => hnz j r (by omega) hr
        refine ⟨hk', he, ht, ?_, fun hno => hsame fun j r hj hr => hno j r (by omega) hr⟩
        rintro ⟨j, r, h1, h2, hr, hrp⟩
        by_cases hji : j = i0
        · subst hji
          rw [h0] at hr
          cases hr
          exact absurd hrp hq
        · exact hex ⟨j, r, by omega, by omega, hr, hrp⟩

/-- C9: one pass of `wait` by the process in slot `c`. (1) If slot `i` is the
first slot in table order that holds a ZOMBIE child of `c`, the pass returns
that child's pid, the slot is reaped (state UNUSED, pid 0, parent null, name
the empty string, killed 0, kstack 0 with the old stack handed to `kfree` and
the page directory to `freevm`) and every other slot and global is unchanged.
(2) If no slot has parent `c`, the pass returns -1 and changes nothing. (3) If
`c` has children, none of them ZOMBIE, and `c` is killed, the pass returns -1
and changes nothing. -/
theorem wait_scan_outcomes (s : State) (c : Nat) (me : proc)
    (hproc : s.proc = .slot c) (hme : s.ptable[c]? = some me) :
    (∀ i p, s.ptable[i]? = some p → p.parent = .slot c → p.state = .ZOMBIE →
        (∀ q ∈ s.ptable.take i, ¬ (q.parent = .slot c ∧ q.state = .ZOMBIE)) →
        waitPass s =
            .ok ({ s with
                    kfreed := s.kfreed ++ [p.kstack]
                    vmfreed := s.vmfreed ++ [p.pgdir]
                    ptable := s.ptable.set i
                      { p with kstack := 0, state := .UNUSED, pid := 0, parent := .null,
                               name := p.name.set 0 0, killed := 0 } },
                 .returned p.pid) ∧
          cstring (p.name.set 0 0) = []) ∧
      ((∀ q ∈ s.ptable, q.parent ≠ .slot c) → waitPass s = .ok (s, .returned (-1))) ∧
      ((∃ q ∈ s.ptable, q.parent = .slot c) →
        (∀ q ∈ s.ptable, q.parent = .slot c → q.state ≠ .ZOMBIE) →
        me.killed ≠ 0 → waitPass s = .ok (s, .returned (-1))) := by
  refine ⟨?_, ?_, ?_⟩
  · intro i p hp hpar hz hfirst
    refine ⟨?_, cstring_set_zero p.name⟩
    have hlt : i < s.ptable.length := (List.getElem?_eq_some_iff.mp hp).1
    have h := waitLoop_reaps_first s.ptable.length 0 false s i p (Nat.zero_le i) (by omega) hp
      (by rw [hproc]; exact hpar) hz
      (fun j q _ hji hq hqp hqz => hfirst q
        (List.mem_iff_getElem?.mpr ⟨j, by rw [List.getElem?_take_of_lt hji]; exact hq⟩)
        ⟨by rw [← hproc]; exact hqp, hqz⟩)
    simp only [waitPass, h]
  · intro hno
    obtain ⟨hk', he, -, -, hsame⟩ := waitLoop_no_zombie s.ptable.length 0 false s
      (fun j q _ hq hqp => absurd (by rw [← hproc]; exact hqp)
        (hno q (List.mem_iff_getElem?.mpr ⟨j, hq⟩)))
    have hk : hk' = false := hsame fun j q _ hq => by
      rw [hproc]; exact hno q (List.mem_iff_getElem?.mpr ⟨j, hq⟩)
    subst hk
    simp [waitPass, he, hproc, loadProc, hme, Res.bind]
  · rintro ⟨q, hq, hqp⟩ hnz hkilled
    obtain ⟨j, hj⟩ := List.mem_iff_getElem?.mp hq
    have hlt : j < s.ptable.length := (List.getElem?_eq_some_iff.mp hj).1
    obtain ⟨hk', he, -, hex, -⟩ := waitLoop_no_zombie s.ptable.length 0 false s
      (fun j q _ hq hqp => hnz q (List.mem_iff_getElem?.mpr ⟨j, hq⟩)
        (by rw [← hproc]; exact hqp))
    have hk : hk' = true := hex ⟨j, q, Nat.zero_le j, by omega, hj, by rw [hproc]; exact hqp⟩
    subst hk
    simp [waitPass, he, hproc, loadProc, hme, Res.bind, hkilled]

theorem wake_chan (c : Addr) (p : proc) : (wake c p).chan = p.chan := by
  unfold wake; split <;> rfl

theorem wake_parent (c : Addr) (p : proc) : (wake c p).parent = p.parent := by
  unfold wake; split <;> rfl

theorem wake_state (c : Addr) (p : proc) :
    (wake c p).state = if p.state = .SLEEPING ∧ p.chan = c then .RUNNABLE else p.state := by
  unfold wake; split <;> rfl

/-- One step of the loop of `exit` seen from slot `j`: the record there
after the assignment of `parent` to slot `i` and the conditional `wakeup1`. -/
theorem exit_step_getElem? (init : Addr) (t : List proc) (i j : Nat) (pi p : proc)
    (hi : t[i]? = some pi) (hj : t[j]? = some p) (z : Prop) [Decidable z] :
    (if z then wakeup1 init (t.set i { pi with parent := init })
      else t.set i { pi with parent := init })[j]? =
      some ((fun r => if z then wake init r else r)
        (if j = i then { p with parent := init } else p)) := by
  have hlt : i < t.length := (List.getElem?_eq_some_iff.mp hi).1
  have h1 : (t.set i { pi with parent := init })[j]? =
      some (if j = i then { p with parent := init } else p) := by
    by_cases hji : j = i
    · subst hji
      rw [hi] at hj
      cases hj
      simp [hlt]
    · rw [List.getElem?_set_ne (Ne.symm hji), hj, if_neg hji]
  by_cases hz : z
  · simp only [hz, if_true]
    rw [wakeup1_getElem?, h1]
    rfl
  · simp only [hz, if_false]
    exact h1

theorem exitLoop_record (cur init : Addr) :
    ∀ (n i : Nat) (t : List proc) (j : Nat) (p : proc), t[j]? = some p →
      ∃ p', (exitLoop cur init n i t)[j]? = some p' ∧ p'.chan = p.chan ∧
        (p'.state = p.state ∨
          (p.state = .SLEEPING ∧ p.chan = init ∧ p'.state = .RUNNABLE)) ∧
        p'.parent = if i ≤ j ∧ j < i + n ∧ p.parent = cur then init else p.parent
  | 0, i, t, j, p, hj => by
    refine ⟨p, hj, rfl, Or.inl rfl, ?_⟩
    have : ¬ (i ≤ j ∧ j < i + 0 ∧ p.parent = cur) := by omega
    rw [if_neg this]
  | n + 1, i, t, j, p, hj => by
    unfold exitLoop
    cases hi : t[i]? with
    | none =>
      refine ⟨p, hj, rfl, Or.inl rfl, ?_⟩
      have hlen : t.length ≤ i := List.getElem?_eq_none_iff.mp hi
      have hlt : j < t.length := (List.getElem?_eq_some_iff.mp hj).1
      have : ¬ (i ≤ j ∧ j < i + (n + 1) ∧ p.parent = cur) := by omega
      rw [if_neg this]
    | some pi =>
      simp only
      by_cases hpar : pi.parent = cur
      · simp only [hpar, if_true]
        have h2 := exit_step_getElem? init t i j pi p hi hj (pi.state = .ZOMBIE)
        obtain ⟨p', hp', hchan, hstate, hparent⟩ :=
          exitLoop_record cur init n (i + 1) _ j _ h2
        refine ⟨p', hp', ?_, ?_, ?_⟩
        · rw [hchan]
          by_cases hz : pi.state = .ZOMBIE <;> by_cases hji : j = i <;>
            simp [hz, hji, wake_chan]
        · by_cases hz : pi.state = .ZOMBIE <;> by_cases hji : j = i <;>
            simp only [hz, hji, if_true, if_false, wake_state, wake_chan] at hstate ⊢
          all_goals
            first
              | exact hstate
              | (by_cases hw : p.state = .SLEEPING ∧ p.chan = init
                 · simp only [hw, and_self, if_true, true_and] at hstate ⊢
                   rcases hstate with h | h
                   · exact Or.inr h
                   · exact absurd h.1 (by decide)
                 · simp only [hw, if_false] at hstate
                   exact hstate)
        · rw [hparent]
          by_cases hji : j = i
          · subst hji
            have hpp : pi = p := by rw [hi] at hj; exact Option.some.inj hj
            subst hpp
            have h1 : ¬ (j + 1 ≤ j ∧ j < j + 1 + n ∧
                ((fun r => if pi.state = .ZOMBIE then wake init r else r)
                  (if j = j then { pi with parent := init } else pi)).parent = cur) := by
              omega
            have h3 : j ≤ j ∧ j < j + (n + 1) ∧ pi.parent = cur := ⟨by omega, by omega, hpar⟩
            rw [if_neg h1, if_pos h3]
            by_cases hz : pi.state = .ZOMBIE <;> simp [hz, wake_parent]
          · have hpp : ((fun r => if pi.state = .ZOMBIE then wake init r else r)
                (if j = i then { p with parent := init } else p)).parent = p.parent := by
              by_cases hz : pi.state = .ZOMBIE <;> simp [hz, hji, wake_parent]
            rw [hpp]
            by_cases hc : p.parent = cur
            · by_cases hr : i + 1 ≤ j ∧ j < i + 1 + n
              · rw [if_pos ⟨hr.1, hr.2, hc⟩, if_pos ⟨by omega, by omega, hc⟩]
              · have a1 : ¬ (i + 1 ≤ j ∧ j < i + 1 + n ∧ p.parent = cur) := by omega
                have a2 : ¬ (i ≤ j ∧ j < i + (n + 1) ∧ p.parent = cur) := by omega
                rw [if_neg a1, if_neg a2]
            · have a1 : ¬ (i + 1 ≤ j ∧ j < i + 1 + n ∧ p.parent = cur) := fun h => hc h.2.2
              have a2 : ¬ (i ≤ j ∧ j < i + (n + 1) ∧ p.parent = cur) := fun h => hc h.2.2
              rw [if_neg a1, if_neg a2]
      · simp only [hpar, if_false]
        obtain ⟨p', hp', hchan, hstate, hparent⟩ := exitLoop_record cur init n (i + 1) t j p hj
        refine ⟨p', hp', hchan, hstate, ?_⟩
        rw [hparent]
        by_cases hji : j = i
        · subst hji
          have hpp : pi = p := by rw [hi] at hj; exact Option.some.inj hj
          subst hpp
          have a1 : ¬ (j + 1 ≤ j ∧ j < j + 1 + n ∧ pi.parent = cur) := by omega
          have a2 : ¬ (j ≤ j ∧ j < j + (n + 1) ∧ pi.parent = cur) := fun h => hpar h.2.2
          rw [if_neg a1, if_neg a2]
        · by_cases hc : p.parent = cur
          · by_cases hr : i + 1 ≤ j ∧ j < i + 1 + n
            · rw [if_pos ⟨hr.1, hr.2, hc⟩, if_pos ⟨by omega, by omega, hc⟩]
            · have a1 : ¬ (i + 1 ≤ j ∧ j < i + 1 + n ∧ p.parent = cur) := by omega
              have a2 : ¬ (i ≤ j ∧ j < i + (n + 1) ∧ p.parent = cur) := by omega
              rw [if_neg a1, if_neg a2]
          · have a1 : ¬ (i + 1 ≤ j ∧ j < i + 1 + n ∧ p.parent = cur) := fun h => hc h.2.2
            have a2 : ¬ (i ≤ j ∧ j < i + (n + 1) ∧ p.parent = cur) := fun h => hc h.2.2
            rw [if_neg a1, if_neg a2]

theorem exitLoop_wakes_sleepers (cur init : Addr) :
    ∀ (n i : Nat) (t : List proc),
      (∃ k q, i ≤ k ∧ k < i + n ∧ t[k]? = some q ∧ q.parent = cur ∧ q.state = .ZOMBIE) →
      ∀ (j : Nat) (p : proc), t[j]? = some p → p.chan = init → p.state = .SLEEPING →
        ∃ p', (exitLoop cur init n i t)[j]? = some p' ∧ p'.state = .RUNNABLE
  | 0, i, t, ⟨k, _, h1, h2, _⟩, _, _, _, _, _ => by omega
  | n + 1, i, t, ⟨k, q, h1, h2, hk, hqp, hqz⟩, j, p, hj, hchan, hsleep => by
    unfold exitLoop
    cases hi : t[i]? with
    | none =>
      have hlen : t.length ≤ i := List.getElem?_eq_none_iff.mp hi
      have : t[k]? = none := List.getElem?_eq_none_iff.mpr (by omega)
      rw [this] at hk
      cases hk
    | some pi =>
      simp only
      by_cases hpar : pi.parent = cur
      · simp only [hpar, if_true]
        have h2j := exit_step_getElem? init t i j pi p hi hj (pi.state = .ZOMBIE)
        by_cases hz : pi.state = .ZOMBIE
        · obtain ⟨p', hp', -, hstate, -⟩ := exitLoop_record cur init n (i + 1) _ j _ h2j
          refine ⟨p', hp', ?_⟩
          have hw : ((fun r => if pi.state = .ZOMBIE then wake init r else r)
              (if j = i then { p with parent := init } else p)).state = .RUNNABLE := by
            by_cases hji : j = i <;> simp [hz, hji, wake_state, hsleep, hchan]
          rw [hw] at hstate
          rcases hstate with h | h
          · exact h
          · exact h.2.2
        · have hki : k ≠ i := by
            intro h
            subst h
            rw [hi] at hk
            cases hk
            exact hz hqz
          have h2k := exit_step_getElem? init t i k pi q hi hk (pi.state = .ZOMBIE)
          simp only [hz, if_false, hki] at h2k
          simp only [hz, if_false] at h2j ⊢
          refine exitLoop_wakes_sleepers cur init n (i + 1) _
            ⟨k, q, by omega, by omega, h2k, hqp, hqz⟩ j _ h2j ?_ ?_
          · by_cases hji : j = i <;> simp [hji, hchan]
          · by_cases hji : j = i <;> simp [hji, hsleep]
      · simp only [hpar, if_false]
        have hki : k ≠ i := by
          intro h
          subst h
          rw [hi] at hk
          cases hk
          exact hpar hqp
        exact exitLoop_wakes_sleepers cur init n (i + 1) t
          ⟨k, q, by omega, by omega, hk, hqp, hqz⟩ j p hj hchan hsleep

/-- C10: the locked part of `exit` run by the process in slot `q`, which is
not `initproc` and, being the process that runs, is not SLEEPING, succeeds; afterwards every record whose parent
was `q` has parent `initproc`, every other record keeps its parent, every
record that was SLEEPING on the channel `q->parent` is RUNNABLE, the record of
`q` is ZOMBIE, and when some record with parent `q` was ZOMBIE, the record of
`initproc`, if it was SLEEPING on its own address, is RUNNABLE. -/
theorem exit_reparents_and_wakes (s : State) (q : Nat) (me : proc)
    (hproc : s.proc = .slot q) (hme : s.ptable[q]? = some me)
    (hinit : s.initproc ≠ .slot q) (hrun : me.state ≠ .SLEEPING) :
    ∃ s', exitLocked s = .ok s' ∧
      (∀ (j : Nat) (p : proc), s.ptable[j]? = some p →
        ∃ p', s'.ptable[j]? = some p' ∧
          (p.parent = .slot q → p'.parent = s.initproc) ∧
          (p.parent ≠ .slot q → p'.parent = p.parent) ∧
          (p.state = .SLEEPING → p.chan = me.parent → p'.state = .RUNNABLE)) ∧
      (∃ p', s'.ptable[q]? = some p' ∧ p'.state = .ZOMBIE) ∧
      ((∃ (k : Nat) (child : proc), s.ptable[k]? = some child ∧ child.parent = .slot q ∧
          child.state = .ZOMBIE) →
        ∀ i0 pi, s.initproc = .slot i0 → s.ptable[i0]? = some pi →
          pi.state = .SLEEPING → pi.chan = .slot i0 →
          ∃ p', s'.ptable[i0]? = some p' ∧ p'.state = .RUNNABLE) := by
  -- the table after `wakeup1(proc->parent)` and after the loop
  have h1 : ∀ (j : Nat) (p : proc), s.ptable[j]? = some p →
      (wakeup1 me.parent s.ptable)[j]? = some (wake me.parent p) := by
    intro j p hj
    rw [wakeup1_getElem?, hj]
    rfl
  have hlen1 : (wakeup1 me.parent s.ptable).length = s.ptable.length := by
    simp [wakeup1_eq_map]
  have h2 : ∀ (j : Nat) (p : proc), s.ptable[j]? = some p →
      ∃ p2, (exitLoop (.slot q) s.initproc s.ptable.length 0
          (wakeup1 me.parent s.ptable))[j]? = some p2 ∧ p2.chan = p.chan ∧
        (p2.state = (wake me.parent p).state ∨
          ((wake me.parent p).state = .SLEEPING ∧ p.chan = s.initproc ∧
            p2.state = .RUNNABLE)) ∧
        p2.parent = if p.parent = .slot q then s.initproc else p.parent := by
    intro j p hj
    have hlt : j < s.ptable.length := (List.getElem?_eq_some_iff.mp hj).1
    obtain ⟨p2, hp2, hc, hs, hp⟩ :=
      exitLoop_record (.slot q) s.initproc s.ptable.length 0 _ j _ (h1 j p hj)
    refine ⟨p2, hp2, by rw [hc, wake_chan], ?_, ?_⟩
    · rw [wake_chan] at hs
      exact hs
    · rw [hp, wake_parent]
      by_cases hc : p.parent = .slot q
      · rw [if_pos ⟨Nat.zero_le j, by omega, hc⟩, if_pos hc]
      · rw [if_neg fun h => hc h.2.2, if_neg hc]
  obtain ⟨me2, hme2, -, -, -⟩ := h2 q me hme
  have hlt : q < (exitLoop (.slot q) s.initproc s.ptable.length 0
      (wakeup1 me.parent s.ptable)).length := (List.getElem?_eq_some_iff.mp hme2).1
  refine ⟨{ s with ptable := (exitLoop (.slot q) s.initproc s.ptable.length 0
      (wakeup1 me.parent s.ptable)).set q { me2 with state := .ZOMBIE } }, ?_, ?_, ?_, ?_⟩
  · have hne : s.proc ≠ s.initproc := by
      rw [hproc]; exact fun h => hinit h.symm
    have hne2 : ¬ Addr.slot q = s.initproc := fun h => hinit h.symm
    simp [exitLocked, hne2, hproc, loadProc, hme, Res.bind, storeProc, hlen1, hme2]
  · intro j p hj
    obtain ⟨p2, hp2, -, hs, hp⟩ := h2 j p hj
    by_cases hjq : j = q
    · subst hjq
      rw [hme] at hj
      have hpp : me = p := Option.some.inj hj
      subst hpp
      rw [hme2] at hp2
      have hpp2 : me2 = p2 := Option.some.inj hp2
      subst hpp2
      refine ⟨{ me2 with state := .ZOMBIE }, by simp [hlt], ?_, ?_, ?_⟩
      · intro hc; simp [hp, hc]
      · intro hc; simp [hp, hc]
      · intro hsl; exact absurd hsl hrun
    · refine ⟨p2, ?_, ?_, ?_, ?_⟩
      · simp only
        rw [List.getElem?_set_ne (Ne.symm hjq), hp2]
      · intro hc; simp [hp, hc]
      · intro hc; simp [hp, hc]
      · intro hsl hch
        have hw : (wake me.parent p).state = .RUNNABLE := by
          simp [wake_state, hsl, hch]
        rw [hw] at hs
        rcases hs with h | h
        · exact h
        · exact absurd h.1 (by decide)
  · exact ⟨{ me2 with state := .ZOMBIE }, by simp [hlt], rfl⟩
  · rintro ⟨k, child, hk, hcp, hcz⟩ i0 pi hi0 hpi hsl hch
    have hi0q : i0 ≠ q := by
      intro h
      subst h
      exact hinit hi0
    obtain ⟨p2, hp2, -, hs, -⟩ := h2 i0 pi hpi
    refine ⟨p2, ?_, ?_⟩
    · simp only
      rw [List.getElem?_set_ne (Ne.symm hi0q), hp2]
    · by_cases hw : (wake me.parent pi).state = .RUNNABLE
      · rw [hw] at hs
        rcases hs with h | h
        · exact h
        · exact h.2.2
      · have hstill : (wake me.parent pi).state = .SLEEPING := by
          rw [wake_state] at hw ⊢
          by_cases hc : pi.state = .SLEEPING ∧ pi.chan = me.parent
          · simp [hc] at hw
          · rw [if_neg hc]
            exact hsl
        have hklt : k < s.ptable.length := (List.getElem?_eq_some_iff.mp hk).1
        have hzc : (wake me.parent child).state = .ZOMBIE := by
          simp [wake_state, hcz]
        obtain ⟨p3, hp3, hr⟩ := exitLoop_wakes_sleepers (.slot q) s.initproc
          s.ptable.length 0 (wakeup1 me.parent s.ptable)
          ⟨k, wake me.parent child, Nat.zero_le k, by omega, h1 k child hk,
            by rw [wake_parent]; exact hcp, hzc⟩
          i0 (wake me.parent pi) (h1 i0 pi hpi)
          (by rw [wake_chan, hch, hi0]) hstill
        rw [hp2] at hp3
        have h23 : p2 = p3 := Option.some.inj hp3
        rw [h23]
        exact hr

/-! ## Theorems: dispatcher -/

theorem level1Iter_ok (beh : State → List Action) (s : State) (r : LoopStep)
    (h : level1Iter beh s = .ok r) : (r = .exit ∧ s.Queue1 = 0) ∨ r = .spin := by
  unfold level1Iter at h
  split at h
  · rename_i h0
    cases h
    exact Or.inl ⟨rfl, h0⟩
  · obtain ⟨n, -, h⟩ := (Res.bind_eq_ok _ _ _).mp h
    obtain ⟨p, -, h⟩ := (Res.bind_eq_ok _ _ _).mp h
    split at h
    · cases h
      exact Or.inr rfl
    · obtain ⟨s1, -, h⟩ := (Res.bind_eq_ok _ _ _).mp h
      obtain ⟨n1, -, h⟩ := (Res.bind_eq_ok _ _ _).mp h
      obtain ⟨s2, happ, -⟩ := (Res.bind_eq_ok _ _ _).mp h
      rw [append_fault] at happ
      cases happ

theorem level2Iter_ok (beh : State → List Action) (s : State) (r : LoopStep)
    (h : level2Iter beh s = .ok r) : (r = .exit ∧ s.Queue2 = 0) ∨ r = .spin := by
  unfold level2Iter at h
  split at h
  · rename_i h0
    cases h
    exact Or.inl ⟨rfl, h0⟩
  · obtain ⟨n, -, h⟩ := (Res.bind_eq_ok _ _ _).mp h
    obtain ⟨p, -, h⟩ := (Res.bind_eq_ok _ _ _).mp h
    split at h
    · cases h
      exact Or.inr rfl
    · obtain ⟨s1, -, h⟩ := (Res.bind_eq_ok _ _ _).mp h
      obtain ⟨n1, -, h⟩ := (Res.bind_eq_ok _ _ _).mp h
      obtain ⟨s2, happ, -⟩ := (Res.bind_eq_ok _ _ _).mp h
      rw [append_fault] at happ
      cases happ

theorem level3Iter_ok (beh : State → List Action) (s : State) (r : LoopStep)
    (h : level3Iter beh s = .ok r) : (r = .exit ∧ s.Queue3 = 0) ∨ r = .spin := by
  unfold level3Iter at h
  split at h
  · rename_i h0
    cases h
    exact Or.inl ⟨rfl, h0⟩
  · obtain ⟨n, -, h⟩ := (Res.bind_eq_ok _ _ _).mp h
    obtain ⟨p, -, h⟩ := (Res.bind_eq_ok _ _ _).mp h
    split at h
    · cases h
      exact Or.inr rfl
    · obtain ⟨s1, -, h⟩ := (Res.bind_eq_ok _ _ _).mp h
      obtain ⟨n1, -, h⟩ := (Res.bind_eq_ok _ _ _).mp h
      split at h
      · obtain ⟨n2, -, h⟩ := (Res.bind_eq_ok _ _ _).mp h
        obtain ⟨s2, happ, -⟩ := (Res.bind_eq_ok _ _ _).mp h
        rw [append_fault] at happ
        cases happ
      · obtain ⟨s2, -, h⟩ := (Res.bind_eq_ok _ _ _).mp h
        obtain ⟨n2, -, h⟩ := (Res.bind_eq_ok _ _ _).mp h
        obtain ⟨s3, happ, -⟩ := (Res.bind_eq_ok _ _ _).mp h
        rw [append_fault] at happ
        cases happ

theorem schedStep_higherLevelsEmpty (beh : State → List Action) (c c' : Config)
    (h : schedStep beh c = .ok c') (hc : higherLevelsEmpty c) : higherLevelsEmpty c' := by
  obtain ⟨pc, s⟩ := c
  cases pc with
  | level1 =>
    obtain ⟨r, hr, h⟩ := (Res.bind_eq_ok _ _ _).mp h
    rcases level1Iter_ok beh s r hr with ⟨rfl, h0⟩ | rfl
    · cases h
      exact ⟨fun _ => h0, (fun h => nomatch h)⟩
    · cases h
      exact hc
  | level2 =>
    obtain ⟨r, hr, h⟩ := (Res.bind_eq_ok _ _ _).mp h
    rcases level2Iter_ok beh s r hr with ⟨rfl, h0⟩ | rfl
    · cases h
      exact ⟨(fun h => nomatch h), fun _ => ⟨hc.1 rfl, h0⟩⟩
    · cases h
      exact hc
  | level3 =>
    obtain ⟨r, hr, h⟩ := (Res.bind_eq_ok _ _ _).mp h
    rcases level3Iter_ok beh s r hr with ⟨rfl, h0⟩ | rfl
    · cases h
      exact ⟨(fun h => nomatch h), (fun h => nomatch h)⟩
    · cases h
      exact hc

theorem schedRun_higherLevelsEmpty (beh : State → List Action) :
    ∀ (n : Nat) (c c' : Config), schedRun beh n c = .ok c' →
      higherLevelsEmpty c → higherLevelsEmpty c'
  | 0, c, c', h, hc => by
    cases h
    exact hc
  | n + 1, c, c', h, hc => by
    obtain ⟨c1, h1, h⟩ := (Res.bind_eq_ok _ _ _).mp h
    exact schedRun_higherLevelsEmpty beh n c1 c' h
      (schedStep_higherLevelsEmpty beh c c1 h1 hc)

/-! ## The claims at concrete inputs -/

/-- C1 (on the code): in `exLevel1` the head of level 1, and in `exLevel2`
the head of level 2, references the RUNNABLE process A, which only yields.
The dispatch round switches to A once at level 1 and three times at level 2
and then stops in `append` with a null dereference: it produces no state, so
A is not found in level 2 (or 3). The scenario of a process created by `fork`
from init stops earlier, in the `append` of `allocproc`. No dispatch round of
level 1 or 2 produces a state, whatever the state and the processes. -/
theorem level12_round_faults_in_append :
    (IsQueue exLevel1.nodes exLevel1.Queue1 [1] ∧
        beginsRound { pc := .level1, s := exLevel1 } = true ∧ exLevel1.Queue2 = 0 ∧
        (dispatch yielding (fun s => s.Queue1) exLevel1).bind (fun s => .ok s.switched)
          = .ok [.slot 1] ∧
        level1Iter yielding exLevel1 = .fault .nullDeref) ∧
      (IsQueue exLevel2.nodes exLevel2.Queue2 [1] ∧
        beginsRound { pc := .level2, s := exLevel2 } = true ∧
        (ticks yielding (fun s => s.Queue2) 3 exLevel2).bind (fun s => .ok s.switched)
          = .ok [.slot 1, .slot 1, .slot 1] ∧
        level2Iter yielding exLevel2 = .fault .nullDeref) ∧
      fork (exState [{ exInit with state := .RUNNING }, exUnused] (.slot 0)) 21 22
        = .fault .nullDeref ∧
      (∀ beh s s', level1Iter beh s ≠ .ok (.round s') ∧
        level2Iter beh s ≠ .ok (.round s')) := by
  refine ⟨by decide, by decide, by decide, ?_⟩
  intro beh s s'
  constructor
  · intro h
    rcases level1Iter_ok beh s _ h with ⟨h1, -⟩ | h1 <;> cases h1
  · intro h
    rcases level2Iter_ok beh s _ h with ⟨h1, -⟩ | h1 <;> cases h1

/-- C2 (on the code): in `exLevel3 b` the process A is alone in level 3 with
aging budget `b` and only yields. The dispatch round switches to A nine
times and then stops in `append` with a null dereference, in the branch
`boostCounter > 0` (budget 3) and in the other branch (budget 0): A is
neither re-appended to level 3 nor promoted to level 1. No dispatch round
of level 3 produces a state, whatever the state and the processes. -/
theorem level3_round_faults_in_append :
    (IsQueue (exLevel3 3).nodes (exLevel3 3).Queue3 [1] ∧
        beginsRound { pc := .level3, s := exLevel3 3 } = true ∧
        (ticks yielding (fun s => s.Queue3) 9 (exLevel3 3)).bind
            (fun s => .ok s.switched.length) = .ok 9 ∧
        level3Iter yielding (exLevel3 3) = .fault .nullDeref) ∧
      (beginsRound { pc := .level3, s := exLevel3 0 } = true ∧
        level3Iter yielding (exLevel3 0) = .fault .nullDeref) ∧
      (∀ beh s s', level3Iter beh s ≠ .ok (.round s')) := by
  refine ⟨by decide, by decide, ?_⟩
  intro beh s s' h
  rcases level3Iter_ok beh s _ h with ⟨h1, -⟩ | h1 <;> cases h1

/-- Witness of C5: in `exTwoNodes` level 1 holds the nodes 1 and 2;
`deleteFirstNode 1` leaves node 2, and level 2 still holds node 3. -/
theorem deleteFirstNode_removes_head_witness :
    IsQueue exTwoNodes.nodes (exTwoNodes.queue 1) [1, 2] ∧
      ∃ s', deleteFirstNode exTwoNodes 1 = .ok s' ∧
        IsQueue s'.nodes (s'.queue 1) [2] ∧ s'.nodes = exTwoNodes.nodes ∧
        s'.ptable = exTwoNodes.ptable ∧ s'.queue 2 = exTwoNodes.queue 2 :=
  ⟨by decide,
    let ⟨s', h1, h2, _, h4, h5, h6, _⟩ :=
      deleteFirstNode_removes_head exTwoNodes 1 [1, 2] (Or.inl rfl) (by decide)
    ⟨s', h1, h2, h4, h5, h6 2 (by decide)⟩⟩

/-- Witness of C7: killing pid 1 in the table of init (asleep) and A. -/
theorem kill_existing_pid_witness :
    kill 1 [exInit, exA] =
      ([{ exInit with killed := 1, state := .RUNNABLE }, exA], 0) :=
  kill_existing_pid [exInit, exA] 1 0 exInit rfl rfl (fun j q hj hq => by
    match j, hj with
    | 0, _ => rfl
    | 1, hj =>
      have hq1 : exA = q := Option.some.inj hj
      subst hq1
      exact absurd hq (by decide)
    | j + 2, hj => cases hj)

/-- Witness of C9: (1) the process in slot 1 has two ZOMBIE children, in
slots 2 and 3, and reaps the one in slot 2; (2) the process in slot 1 has no
child; (3) init has the child A, not ZOMBIE, and is killed. -/
theorem wait_scan_outcomes_witness :
    waitPass (exState [exInit, exA, exZ, { exZ with pid := 4 }] (.slot 1)) =
        .ok ({ exState [exInit, exA,
                  { exZ with kstack := 0, state := .UNUSED, pid := 0, parent := .null,
                             killed := 0 },
                  { exZ with pid := 4 }] (.slot 1) with
                kfreed := [13], vmfreed := [9] }, .returned 3) ∧
      waitPass (exState [exInit, exA] (.slot 1)) =
        .ok (exState [exInit, exA] (.slot 1), .returned (-1)) ∧
      waitPass (exState [{ exInit with killed := 1 }, exA] (.slot 0)) =
        .ok (exState [{ exInit with killed := 1 }, exA] (.slot 0), .returned (-1)) :=
  ⟨((wait_scan_outcomes (exState [exInit, exA, exZ, { exZ with pid := 4 }] (.slot 1)) 1 exA
        rfl rfl).1 2 exZ rfl rfl rfl (by decide)).1,
    (wait_scan_outcomes (exState [exInit, exA] (.slot 1)) 1 exA rfl rfl).2.1 (by decide),
    (wait_scan_outcomes (exState [{ exInit with killed := 1 }, exA] (.slot 0)) 0
        { exInit with killed := 1 } rfl rfl).2.2 (by decide) (by decide) (by decide)⟩

/-- Witness of C10: the process in slot 1 (child of init, parent of the
ZOMBIE in slot 2) exits while init sleeps in `wait`. -/
theorem exit_reparents_and_wakes_witness :
    (exState [exInit, { exA with state := .RUNNING }, exZ] (.slot 1)).initproc ≠ .slot 1 ∧
      ∃ s', exitLocked (exState [exInit, { exA with state := .RUNNING }, exZ] (.slot 1))
            = .ok s' ∧
        (∃ p', s'.ptable[2]? = some p' ∧ p'.parent = .slot 0) ∧
        (∃ p', s'.ptable[1]? = some p' ∧ p'.state = .ZOMBIE) ∧
        (∃ p', s'.ptable[0]? = some p' ∧ p'.state = .RUNNABLE) :=
  ⟨by decide,
    let ⟨s', h1, h2, h3, h4⟩ :=
      exit_reparents_and_wakes (exState [exInit, { exA with state := .RUNNING }, exZ] (.slot 1))
        1 { exA with state := .RUNNING } rfl rfl (by decide) (by decide)
    ⟨s', h1,
      let ⟨p', hp, hpar, _⟩ := h2 2 exZ rfl
      ⟨p', hp, hpar rfl⟩,
      h3, h4 ⟨2, exZ, rfl, rfl, rfl⟩ 0 exInit rfl rfl rfl rfl⟩⟩

/-! ## Theorems: process creation -/

theorem findUnused_some :
    ∀ (n i0 : Nat) (t : List proc) (i : Nat), findUnused n i0 t = some i →
      ∃ p, t[i]? = some p ∧ p.state = .UNUSED ∧ i0 ≤ i ∧
        ∀ (j : Nat) (q : proc), i0 ≤ j → j < i → t[j]? = some q → q.state ≠ .UNUSED
  | 0, _, _, _, h => by cases h
  | n + 1, i0, t, i, h => by
    unfold findUnused at h
    cases h0 : t[i0]? with
    | none => rw [h0] at h; cases h
    | some p =>
      rw [h0] at h
      simp only at h
      by_cases hu : p.state = .UNUSED
      · rw [if_pos hu] at h
        cases h
        exact ⟨p, h0, hu, Nat.le_refl _, fun j q h1 h2 => by omega⟩
      · rw [if_neg hu] at h
        obtain ⟨q, hq, hqu, hle, hfirst⟩ := findUnused_some n (i0 + 1) t i h
        refine ⟨q, hq, hqu, by omega, ?_⟩
        intro j r h1 h2 hr
        by_cases hj : j = i0
        · subst hj
          rw [h0] at hr
          cases hr
          exact hu
        · exact hfirst j r (by omega) h2 hr

theorem findUnused_none :
    ∀ (n i0 : Nat) (t : List proc), findUnused n i0 t = none →
      ∀ (j : Nat) (q : proc), i0 ≤ j → j < i0 + n → t[j]? = some q → q.state ≠ .UNUSED
  | 0, _, _, _ => fun j q h1 h2 => by omega
  | n + 1, i0, t, h => by
    unfold findUnused at h
    intro j q h1 h2 hq
    cases h0 : t[i0]? with
    | none =>
      have hlen : t.length ≤ i0 := List.getElem?_eq_none_iff.mp h0
      have : t[j]? = none := List.getElem?_eq_none_iff.mpr (by omega)
      rw [this] at hq
      cases hq
    | some p =>
      rw [h0] at h
      simp only at h
      by_cases hu : p.state = .UNUSED
      · rw [if_pos hu] at h
        cases h
      · rw [if_neg hu] at h
        by_cases hj : j = i0
        · subst hj
          rw [h0] at hq
          cases hq
          exact hu
        · exact findUnused_none n (i0 + 1) t h j q (by omega) (by omega) hq

theorem allocproc_no_slot (s : State) (kalloc : Nat)
    (h : findUnused s.ptable.length 0 s.ptable = none) :
    allocproc s kalloc = .ok (s, .null) := by
  simp [allocproc, h]

theorem allocproc_faults (s : State) (kalloc i : Nat)
    (h : findUnused s.ptable.length 0 s.ptable = some i) (hk : kalloc ≠ 0) :
    allocproc s kalloc = .fault .nullDeref := by
  obtain ⟨p, hp, -, -, -⟩ := findUnused_some _ _ _ _ h
  have hlt : i < s.ptable.length := (List.getElem?_eq_some_iff.mp hp).1
  simp [allocproc, h, storeProc, hp, Res.bind, hlt, hk, append_fault]

theorem allocproc_kalloc_fails (s : State) (i : Nat) (p : proc)
    (h : findUnused s.ptable.length 0 s.ptable = some i) (hp : s.ptable[i]? = some p) :
    allocproc s 0 =
      .ok ({ s with
              ptable := s.ptable.set i
                { p with state := .UNUSED, pid := s.nextpid, queueName := 1,
                         quantumSize := 10, kstack := 0 }
              nextpid := wrap32 (s.nextpid + 1) }, .null) := by
  have hlt : i < s.ptable.length := (List.getElem?_eq_some_iff.mp hp).1
  simp [allocproc, h, storeProc, hp, Res.bind, hlt]

theorem fork_faults (s : State) (kalloc copyuvm i : Nat)
    (h : findUnused s.ptable.length 0 s.ptable = some i) (hk : kalloc ≠ 0) :
    fork s kalloc copyuvm = .fault .nullDeref := by
  simp [fork, allocproc_faults s kalloc i h hk, Res.bind]

theorem findUnused_eq_none (t : List proc) (h : ∀ p ∈ t, p.state ≠ .UNUSED) :
    findUnused t.length 0 t = none := by
  cases hf : findUnused t.length 0 t with
  | none => rfl
  | some i =>
    obtain ⟨p, hp, hu, -, -⟩ := findUnused_some _ _ _ _ hf
    exact absurd hu (h p (List.mem_iff_getElem?.mpr ⟨i, hp⟩))

theorem findUnused_first (t : List proc) (i : Nat) (p : proc)
    (hp : t[i]? = some p) (hu : p.state = .UNUSED)
    (hfirst : ∀ q ∈ t.take i, q.state ≠ .UNUSED) :
    findUnused t.length 0 t = some i := by
  have hlt : i < t.length := (List.getElem?_eq_some_iff.mp hp).1
  cases hf : findUnused t.length 0 t with
  | none =>
    exact absurd hu (findUnused_none _ _ _ hf i p (Nat.zero_le i) (by omega) hp)
  | some k =>
    obtain ⟨q, hq, hqu, -, hkfirst⟩ := findUnused_some _ _ _ _ hf
    rcases Nat.lt_trichotomy k i with hlt' | heq | hgt
    · exact absurd hqu (hfirst q (List.mem_iff_getElem?.mpr
        ⟨k, by rw [List.getElem?_take_of_lt hlt']; exact hq⟩))
    · rw [heq]
    · exact absurd hu (hkfirst i p (Nat.zero_le i) hgt hp)

/-- C11 (on the code): in `exForking` slot 1 is the first UNUSED slot and
the kernel stack is granted (`kalloc` returns 21), yet `allocproc` stops in
`append` with a null dereference, as it does in every state with an UNUSED
slot when the stack is granted: no state with the slot EMBRYO and a node at
the tail of level 1 is produced. The two failure cases are as the claim
says: with no UNUSED slot the call returns 0 and changes nothing; when the
first UNUSED slot is `i` and the stack request fails the call returns 0, the
slot is UNUSED again and the queues are unchanged. -/
theorem allocproc_stops_in_append :
    (findUnused exForking.ptable.length 0 exForking.ptable = some 1 ∧
        allocproc exForking 21 = .fault .nullDeref) ∧
      (∀ (s : State) (kalloc i : Nat) (p : proc),
        s.ptable[i]? = some p → p.state = .UNUSED →
        (∀ q ∈ s.ptable.take i, q.state ≠ .UNUSED) → kalloc ≠ 0 →
        allocproc s kalloc = .fault .nullDeref) ∧
      (∀ (s : State) (kalloc : Nat), (∀ p ∈ s.ptable, p.state ≠ .UNUSED) →
        allocproc s kalloc = .ok (s, .null)) ∧
      (∀ (s : State) (i : Nat) (p : proc),
        s.ptable[i]? = some p → p.state = .UNUSED →
        (∀ q ∈ s.ptable.take i, q.state ≠ .UNUSED) →
        allocproc s 0 =
          .ok ({ s with
                  ptable := s.ptable.set i
                    { p with state := .UNUSED, pid := s.nextpid, queueName := 1,
                             quantumSize := 10, kstack := 0 }
                  nextpid := wrap32 (s.nextpid + 1) }, .null)) := by
  refine ⟨by decide, ?_, ?_, ?_⟩
  · intro s kalloc i p hp hu hfirst hk
    exact allocproc_faults s kalloc i (findUnused_first _ i p hp hu hfirst) hk
  · intro s kalloc h
    exact allocproc_no_slot s kalloc (findUnused_eq_none _ h)
  · intro s i p hp hu hfirst
    exact allocproc_kalloc_fails s i p (findUnused_first _ i p hp hu hfirst) hp

/-- C12 (on the code): in `exForking` a slot is free, the kernel stack is
granted (`kalloc` returns 21) and the address-space copy fails (`copyuvm`
returns 0); `fork` does not return -1: it stops in the `append` of
`allocproc` with a null dereference, before the copy is attempted, and so
it does in every state with an UNUSED slot when the stack is granted. -/
theorem fork_stops_before_rollback :
    (findUnused exForking.ptable.length 0 exForking.ptable = some 1 ∧
        fork exForking 21 0 = .fault .nullDeref) ∧
      (∀ (s : State) (kalloc copyuvm i : Nat) (p : proc),
        s.ptable[i]? = some p → p.state = .UNUSED →
        (∀ q ∈ s.ptable.take i, q.state ≠ .UNUSED) → kalloc ≠ 0 →
        fork s kalloc copyuvm = .fault .nullDeref) := by
  refine ⟨by decide, ?_⟩
  intro s kalloc copyuvm i p hp hu hfirst hk
  exact fork_faults s kalloc copyuvm i (findUnused_first _ i p hp hu hfirst) hk

/-! ## Theorems: pids -/

theorem wrap32_succ (n : Int) (h1 : 1 ≤ n) (h2 : n < intMax) : wrap32 (n + 1) = n + 1 := by
  unfold wrap32
  unfold intMax at h2
  omega

theorem getElem?_set_cases (t : List proc) (i j : Nat) (p' q : proc)
    (h : (t.set i p')[j]? = some q) : (j = i ∧ q = p') ∨ (j ≠ i ∧ t[j]? = some q) := by
  by_cases hji : j = i
  · subst hji
    have hlt : j < (t.set j p').length := (List.getElem?_eq_some_iff.mp h).1
    rw [List.length_set] at hlt
    left
    refine ⟨rfl, ?_⟩
    simp [hlt] at h
    exact h.symm
  · right
    rw [List.getElem?_set_ne (Ne.symm hji)] at h
    exact ⟨hji, h⟩

/-- Writing slot `i` keeps the pids unique when the new record is UNUSED or
was live before with the same pid, and `nextpid` does not decrease. -/
theorem pidsUnique_set (s s' : State) (i : Nat) (p p' : proc) (h : PidsUnique s)
    (hp : s.ptable[i]? = some p)
    (hkeep : p'.state ≠ .UNUSED → p.state ≠ .UNUSED ∧ p'.pid = p.pid)
    (ht : s'.ptable = s.ptable.set i p') (hn : s.nextpid ≤ s'.nextpid) :
    PidsUnique s' := by
  obtain ⟨h1, hb, hu⟩ := h
  have key : ∀ (j : Nat) (q : proc), s'.ptable[j]? = some q → q.state ≠ .UNUSED →
      ∃ q0, s.ptable[j]? = some q0 ∧ q0.state ≠ .UNUSED ∧ q.pid = q0.pid := by
    intro j q hq hl
    rw [ht] at hq
    rcases getElem?_set_cases _ _ _ _ _ hq with ⟨rfl, rfl⟩ | ⟨-, hq0⟩
    · exact ⟨p, hp, (hkeep hl).1, (hkeep hl).2⟩
    · exact ⟨q, hq0, hl, rfl⟩
  refine ⟨by omega, ?_, ?_⟩
  · intro j q hq hl
    obtain ⟨q0, hq0, hl0, he⟩ := key j q hq hl
    have := hb j q0 hq0 hl0
    omega
  · intro j k q r hq hr hlq hlr he
    obtain ⟨q0, hq0, hl0, he0⟩ := key j q hq hlq
    obtain ⟨r0, hr0, hlr0, he1⟩ := key k r hr hlr
    exact hu j k q0 r0 hq0 hr0 hl0 hlr0 (by omega)

theorem pidsUnique_of_eq (s s' : State) (h : PidsUnique s) (ht : s'.ptable = s.ptable)
    (hn : s'.nextpid = s.nextpid) : PidsUnique s' := by
  obtain ⟨h1, hb, hu⟩ := h
  refine ⟨by omega, ?_, ?_⟩
  · intro j q hq hl
    rw [ht] at hq
    rw [hn]
    exact hb j q hq hl
  · intro j k q r hq hr
    rw [ht] at hq hr
    exact hu j k q r hq hr

theorem pidsUnique_boot (n : Nat) : PidsUnique (bootState n) := by
  have hall : ∀ (j : Nat) (q : proc), (bootState n).ptable[j]? = some q →
      q.state = .UNUSED := by
    intro j q hq
    have hm : q ∈ List.replicate n exUnused := List.mem_iff_getElem?.mpr ⟨j, hq⟩
    rw [List.eq_of_mem_replicate hm]
    rfl
  refine ⟨Int.le_refl 1, ?_, ?_⟩
  · intro j q hq hl
    exact absurd (hall j q hq) hl
  · intro j k q r hq _ hl
    exact absurd (hall j q hq) hl

theorem pidsUnique_allocSlot (s s' : State) (i : Nat) (h : PidsUnique s)
    (hmax : s.nextpid < intMax) (ha : allocSlot s = some (s', i)) : PidsUnique s' := by
  obtain ⟨h1, hb, hu⟩ := h
  unfold allocSlot at ha
  cases hf : findUnused s.ptable.length 0 s.ptable with
  | none => rw [hf] at ha; cases ha
  | some k =>
    rw [hf] at ha
    simp only at ha
    cases hk : s.ptable[k]? with
    | none => rw [hk] at ha; cases ha
    | some p =>
      rw [hk] at ha
      simp only [Option.some.injEq, Prod.mk.injEq] at ha
      obtain ⟨hs, rfl⟩ := ha
      subst hs
      show PidsUnique _
      unfold PidsUnique
      simp only
      rw [wrap32_succ s.nextpid h1 hmax]
      have key : ∀ (j : Nat) (q : proc),
          (s.ptable.set k { p with state := .EMBRYO, pid := s.nextpid, queueName := 1,
                                   quantumSize := 10 })[j]? = some q →
          q.state ≠ .UNUSED →
          (j = k ∧ q.pid = s.nextpid) ∨
            (j ≠ k ∧ s.ptable[j]? = some q) := by
        intro j q hq _
        rcases getElem?_set_cases _ _ _ _ _ hq with ⟨rfl, rfl⟩ | ⟨hne, hq0⟩
        · exact Or.inl ⟨rfl, rfl⟩
        · exact Or.inr ⟨hne, hq0⟩
      refine ⟨by omega, ?_, ?_⟩
      · intro j q hq hl
        rcases key j q hq hl with ⟨-, he⟩ | ⟨-, hq0⟩
        · omega
        · have := hb j q hq0 hl
          omega
      · intro j m q r hq hr hlq hlr he
        rcases key j q hq hlq with ⟨hj, heq⟩ | ⟨hj, hq0⟩ <;>
          rcases key m r hr hlr with ⟨hm, her⟩ | ⟨hm, hr0⟩
        · omega
        · have := hb m r hr0 hlr
          omega
        · have := hb j q hq0 hlq
          omega
        · exact hu j m q r hq0 hr0 hlq hlr he

theorem waitLoop_state :
    ∀ (n i0 : Nat) (hk : Bool) (s : State),
      (waitLoop n i0 hk s).1 = s ∨
        ∃ (i : Nat) (p : proc), s.ptable[i]? = some p ∧
          (waitLoop n i0 hk s).1 =
            { s with
                kfreed := s.kfreed ++ [p.kstack]
                vmfreed := s.vmfreed ++ [p.pgdir]
                ptable := s.ptable.set i
                  { p with kstack := 0, state := .UNUSED, pid := 0, parent := .null,
                           name := p.name.set 0 0, killed := 0 } }
  | 0, _, _, _ => Or.inl rfl
  | n + 1, i0, hk, s => by
    unfold waitLoop
    cases h0 : s.ptable[i0]? with
    | none => exact Or.inl rfl
    | some p =>
      simp only
      by_cases hpar : p.parent ≠ s.proc
      · rw [if_pos hpar]
        exact waitLoop_state n (i0 + 1) hk s
      · rw [if_neg hpar]
        by_cases hz : p.state = .ZOMBIE
        · rw [if_pos hz]
          exact Or.inr ⟨i0, p, h0, rfl⟩
        · rw [if_neg hz]
          exact waitLoop_state n (i0 + 1) true s

theorem waitPass_returned (s s' : State) (v : Int)
    (h : waitPass s = .ok (s', .returned v)) :
    s' = (waitLoop s.ptable.length 0 false s).1 := by
  unfold waitPass at h
  rcases hw : waitLoop s.ptable.length 0 false s with ⟨s1, hk, r⟩
  rw [hw] at h
  cases r with
  | some pid =>
    simp only [Res.ok.injEq, Prod.mk.injEq] at h
    exact h.1.symm
  | none =>
    simp only at h
    by_cases hkf : hk = false
    · rw [if_pos hkf] at h
      simp only [Res.ok.injEq, Prod.mk.injEq] at h
      exact h.1.symm
    · rw [if_neg hkf] at h
      obtain ⟨me, -, h⟩ := (Res.bind_eq_ok _ _ _).mp h
      by_cases hkl : me.killed ≠ 0
      · rw [if_pos hkl] at h
        simp only [Res.ok.injEq, Prod.mk.injEq] at h
        exact h.1.symm
      · rw [if_neg hkl] at h
        obtain ⟨s2, -, h⟩ := (Res.bind_eq_ok _ _ _).mp h
        simp only [Res.ok.injEq, Prod.mk.injEq] at h
        exact absurd h.2 (fun hh => nomatch hh)

theorem allocproc_ok (s s' : State) (kalloc : Nat) (r : Addr)
    (h : allocproc s kalloc = .ok (s', r)) :
    r = .null ∧
      (s' = s ∨
        ∃ (i : Nat) (p : proc), s.ptable[i]? = some p ∧
          s' = { s with
                  ptable := s.ptable.set i
                    { p with state := .UNUSED, pid := s.nextpid, queueName := 1,
                             quantumSize := 10, kstack := 0 }
                  nextpid := wrap32 (s.nextpid + 1) }) := by
  cases hf : findUnused s.ptable.length 0 s.ptable with
  | none =>
    rw [allocproc_no_slot s kalloc hf] at h
    simp only [Res.ok.injEq, Prod.mk.injEq] at h
    exact ⟨h.2.symm, Or.inl h.1.symm⟩
  | some i =>
    by_cases hk : kalloc = 0
    · subst hk
      obtain ⟨p, hp, -, -, -⟩ := findUnused_some _ _ _ _ hf
      rw [allocproc_kalloc_fails s i p hf hp] at h
      simp only [Res.ok.injEq, Prod.mk.injEq] at h
      exact ⟨h.2.symm, Or.inr ⟨i, p, hp, h.1.symm⟩⟩
    · rw [allocproc_faults s kalloc i hf hk] at h
      cases h

theorem fork_ok (s s' : State) (kalloc copyuvm : Nat) (r : Int)
    (h : fork s kalloc copyuvm = .ok (s', r)) :
    r = -1 ∧ allocproc s kalloc = .ok (s', .null) := by
  unfold fork at h
  obtain ⟨a, ha, h⟩ := (Res.bind_eq_ok _ _ _).mp h
  obtain ⟨s1, r1⟩ := a
  obtain ⟨hr1, -⟩ := allocproc_ok s s1 kalloc r1 ha
  subst hr1
  simp only [if_true, Res.ok.injEq, Prod.mk.injEq] at h
  rw [← h.1]
  exact ⟨h.2.symm, ha⟩

theorem pidsUnique_allocproc (s s' : State) (kalloc : Nat) (r : Addr)
    (h : PidsUnique s) (hmax : s.nextpid < intMax)
    (ha : allocproc s kalloc = .ok (s', r)) : PidsUnique s' := by
  rcases (allocproc_ok s s' kalloc r ha).2 with rfl | ⟨i, p, hp, rfl⟩
  · exact h
  · refine pidsUnique_set s _ i p _ h hp (fun hl => absurd rfl hl) rfl ?_
    show s.nextpid ≤ wrap32 (s.nextpid + 1)
    rw [wrap32_succ s.nextpid h.1 hmax]
    omega

theorem pidReach_pidsUnique (s : State) (h : PidReach s) : PidsUnique s := by
  induction h with
  | boot n => exact pidsUnique_boot n
  | setProc a _ ih => exact pidsUnique_of_eq _ _ ih rfl rfl
  | alloc _ hmax ha ih => exact pidsUnique_allocSlot _ _ _ ih hmax ha
  | @unuse s t i _ hst ih =>
    cases hi : s.ptable[i]? with
    | none => simp [storeProc, hi] at hst
    | some p =>
      simp only [storeProc, hi, Res.ok.injEq] at hst
      exact pidsUnique_set s _ i p { p with state := .UNUSED } ih hi
        (fun hl => absurd rfl hl) hst.symm (Int.le_refl _)
  | live i p p' _ hp hl hl' hpid ih =>
    exact pidsUnique_set _ _ i p p' ih hp (fun _ => ⟨hl, hpid⟩) rfl (Int.le_refl _)
  | @reap s s' v _ hw ih =>
    have hs := waitPass_returned s s' v hw
    rcases waitLoop_state s.ptable.length 0 false s with h0 | ⟨i, p, hp, h1⟩
    · rw [hs, h0]
      exact ih
    · rw [hs, h1]
      exact pidsUnique_set s _ i p _ ih hp (fun hl => absurd rfl hl) rfl (Int.le_refl _)
  | allocproc kalloc _ hmax ha ih => exact pidsUnique_allocproc _ _ kalloc _ ih hmax ha
  | fork kalloc copyuvm _ hmax hf ih =>
    exact pidsUnique_allocproc _ _ kalloc _ ih hmax (fork_ok _ _ kalloc copyuvm _ hf).2

/-- C13: in every state reached from the boot state (all slots UNUSED,
`nextpid = 1`) by allocations, successful or failed at the kernel stack or
at the address-space copy, and by reaps, each allocation starting with
`nextpid` below the largest `int`, every live record has a positive pid
smaller than `nextpid` and no two live records have the same pid. -/
theorem live_pids_unique (s : State) (h : PidReach s) :
    (∀ (i : Nat) (p : proc), s.ptable[i]? = some p → p.state ≠ .UNUSED →
        0 < p.pid ∧ p.pid < s.nextpid) ∧
      (∀ (i j : Nat) (p q : proc), s.ptable[i]? = some p → s.ptable[j]? = some q →
        p.state ≠ .UNUSED → q.state ≠ .UNUSED → p.pid = q.pid → i = j) :=
  (pidReach_pidsUnique s h).2

/-- Witness of C13: two allocations, the failure of the first at its kernel
stack, and a third allocation that takes the freed slot: slot 0 is live with
pid 3, slot 1 with pid 2, and `nextpid` is 4. -/
theorem live_pids_unique_witness :
    PidReach exPid4 ∧
      exPid4.ptable.map (fun p => (p.state, p.pid)) = [(.EMBRYO, 3), (.EMBRYO, 2)] ∧
      exPid4.nextpid = 4 ∧
      (∀ (i : Nat) (p : proc), exPid4.ptable[i]? = some p → p.state ≠ .UNUSED →
        0 < p.pid ∧ p.pid < exPid4.nextpid) ∧
      (∀ (i j : Nat) (p q : proc), exPid4.ptable[i]? = some p → exPid4.ptable[j]? = some q →
        p.state ≠ .UNUSED → q.state ≠ .UNUSED → p.pid = q.pid → i = j) :=
  have h1 : PidReach exPid1 :=
    PidReach.alloc (i := 0) (PidReach.boot 2) (by decide) (by decide)
  have h2 : PidReach exPid2 := PidReach.alloc (i := 1) h1 (by decide) (by decide)
  have h3 : PidReach exPid3 := PidReach.unuse 0 h2 (by decide)
  have h4 : PidReach exPid4 := PidReach.alloc (i := 0) h3 (by decide) (by decide)
  ⟨h4, by decide, by decide, live_pids_unique exPid4 h4⟩

/-! ## Theorems: states between operations -/

theorem storeProc_queues (s s' : State) (a : Addr) (f : proc → proc)
    (h : ((storeProc s.ptable a f).bind fun t => Res.ok { s with ptable := t }) = .ok s') :
    s'.Queue1 = s.Queue1 ∧ s'.Queue2 = s.Queue2 ∧ s'.Queue3 = s.Queue3 := by
  obtain ⟨t, -, h⟩ := (Res.bind_eq_ok _ _ _).mp h
  cases h
  exact ⟨rfl, rfl, rfl⟩

theorem yield_queues (s s' : State) (h : yield s = .ok s') :
    s'.Queue1 = s.Queue1 ∧ s'.Queue2 = s.Queue2 ∧ s'.Queue3 = s.Queue3 :=
  storeProc_queues s s' _ _ h

theorem sleep_queues (s s' : State) (chan : Addr) (lk : Bool)
    (h : sleep s chan lk = .ok s') :
    s'.Queue1 = s.Queue1 ∧ s'.Queue2 = s.Queue2 ∧ s'.Queue3 = s.Queue3 := by
  unfold sleep at h
  split at h
  · cases h
  · split at h
    · cases h
    · exact storeProc_queues s s' _ _ h

theorem exitLocked_queues (s s' : State) (h : exitLocked s = .ok s') :
    s'.Queue1 = s.Queue1 ∧ s'.Queue2 = s.Queue2 ∧ s'.Queue3 = s.Queue3 := by
  unfold exitLocked at h
  split at h
  · cases h
  · obtain ⟨me, -, h⟩ := (Res.bind_eq_ok _ _ _).mp h
    obtain ⟨t, -, h⟩ := (Res.bind_eq_ok _ _ _).mp h
    cases h
    exact ⟨rfl, rfl, rfl⟩

theorem waitLoop_queues (n i0 : Nat) (hk : Bool) (s : State) :
    (waitLoop n i0 hk s).1.Queue1 = s.Queue1 ∧ (waitLoop n i0 hk s).1.Queue2 = s.Queue2 ∧
      (waitLoop n i0 hk s).1.Queue3 = s.Queue3 := by
  rcases waitLoop_state n i0 hk s with h | ⟨i, p, -, h⟩ <;> rw [h] <;> exact ⟨rfl, rfl, rfl⟩

theorem waitPass_queues (s s' : State) (r : WaitResult) (h : waitPass s = .ok (s', r)) :
    s'.Queue1 = s.Queue1 ∧ s'.Queue2 = s.Queue2 ∧ s'.Queue3 = s.Queue3 := by
  have hq := waitLoop_queues s.ptable.length 0 false s
  cases r with
  | returned v =>
    rw [waitPass_returned s s' v h]
    exact hq
  | sleeps =>
    unfold waitPass at h
    rcases hw : waitLoop s.ptable.length 0 false s with ⟨s1, hk, r⟩
    rw [hw] at h hq
    cases r with
    | some pid =>
      simp only [Res.ok.injEq, Prod.mk.injEq] at h
      exact absurd h.2 (fun hh => nomatch hh)
    | none =>
      simp only at h
      by_cases hkf : hk = false
      · rw [if_pos hkf] at h
        simp only [Res.ok.injEq, Prod.mk.injEq] at h
        exact absurd h.2 (fun hh => nomatch hh)
      · rw [if_neg hkf] at h
        obtain ⟨me, -, h⟩ := (Res.bind_eq_ok _ _ _).mp h
        by_cases hkl : me.killed ≠ 0
        · rw [if_pos hkl] at h
          simp only [Res.ok.injEq, Prod.mk.injEq] at h
          exact absurd h.2 (fun hh => nomatch hh)
        · rw [if_neg hkl] at h
          obtain ⟨s2, hs2, h⟩ := (Res.bind_eq_ok _ _ _).mp h
          simp only [Res.ok.injEq, Prod.mk.injEq] at h
          have h2 := sleep_queues s1 s2 _ _ hs2
          rw [← h.1]
          exact ⟨h2.1.trans hq.1, h2.2.1.trans hq.2.1, h2.2.2.trans hq.2.2⟩

theorem allocproc_queues (s s' : State) (kalloc : Nat) (r : Addr)
    (h : allocproc s kalloc = .ok (s', r)) :
    s'.Queue1 = s.Queue1 ∧ s'.Queue2 = s.Queue2 ∧ s'.Queue3 = s.Queue3 := by
  rcases (allocproc_ok s s' kalloc r h).2 with rfl | ⟨i, p, -, rfl⟩ <;> exact ⟨rfl, rfl, rfl⟩

theorem userinit_faults (s s' : State) (kalloc setupkvm pgsize : Nat) :
    userinit s kalloc setupkvm pgsize ≠ .ok s' := by
  intro h
  unfold userinit at h
  obtain ⟨a, ha, h⟩ := (Res.bind_eq_ok _ _ _).mp h
  obtain ⟨s1, r1⟩ := a
  obtain ⟨hr1, -⟩ := allocproc_ok s s1 kalloc r1 ha
  subst hr1
  obtain ⟨t, ht, -⟩ := (Res.bind_eq_ok _ _ _).mp h
  simp [storeProc] at ht

theorem schedStep_state (beh : State → List Action) (c c' : Config)
    (h : schedStep beh c = .ok c') : c'.s = c.s := by
  obtain ⟨pc, s⟩ := c
  cases pc with
  | level1 =>
    obtain ⟨r, hr, h⟩ := (Res.bind_eq_ok _ _ _).mp h
    rcases level1Iter_ok beh s r hr with ⟨rfl, -⟩ | rfl <;> cases h <;> rfl
  | level2 =>
    obtain ⟨r, hr, h⟩ := (Res.bind_eq_ok _ _ _).mp h
    rcases level2Iter_ok beh s r hr with ⟨rfl, -⟩ | rfl <;> cases h <;> rfl
  | level3 =>
    obtain ⟨r, hr, h⟩ := (Res.bind_eq_ok _ _ _).mp h
    rcases level3Iter_ok beh s r hr with ⟨rfl, -⟩ | rfl <;> cases h <;> rfl

theorem schedRun_state (beh : State → List Action) :
    ∀ (n : Nat) (c c' : Config), schedRun beh n c = .ok c' → c'.s = c.s
  | 0, c, c', h => by
    cases h
    rfl
  | n + 1, c, c', h => by
    obtain ⟨c1, h1, h⟩ := (Res.bind_eq_ok _ _ _).mp h
    rw [schedRun_state beh n c1 c' h, schedStep_state beh c c1 h1]

/-- In every state reached from the boot state by the operations of
`proc.c` the three queues are empty: the only assignments to the queue heads
are in `append`, which stops before it links a node, and in
`deleteFirstNode`, which leaves an empty queue empty. -/
theorem reachable_queues_empty (s : State) (h : Reachable s) :
    s.Queue1 = 0 ∧ s.Queue2 = 0 ∧ s.Queue3 = 0 := by
  induction h with
  | boot n => exact ⟨rfl, rfl, rfl⟩
  | setProc a _ ih => exact ih
  | allocproc kalloc _ ha ih =>
    have hq := allocproc_queues _ _ kalloc _ ha
    exact ⟨hq.1.trans ih.1, hq.2.1.trans ih.2.1, hq.2.2.trans ih.2.2⟩
  | userinit kalloc setupkvm pgsize _ hu _ => exact absurd hu (userinit_faults _ _ _ _ _)
  | fork kalloc copyuvm _ hf ih =>
    have hq := allocproc_queues _ _ kalloc _ (fork_ok _ _ kalloc copyuvm _ hf).2
    exact ⟨hq.1.trans ih.1, hq.2.1.trans ih.2.1, hq.2.2.trans ih.2.2⟩
  | scheduler beh n _ hr ih =>
    rw [schedRun_state beh n _ _ hr]
    exact ih
  | yield _ hy ih =>
    have hq := yield_queues _ _ hy
    exact ⟨hq.1.trans ih.1, hq.2.1.trans ih.2.1, hq.2.2.trans ih.2.2⟩
  | sleep chan lk _ hs ih =>
    have hq := sleep_queues _ _ chan lk hs
    exact ⟨hq.1.trans ih.1, hq.2.1.trans ih.2.1, hq.2.2.trans ih.2.2⟩
  | wakeup chan _ ih => exact ih
  | kill pid _ ih => exact ih
  | exit _ he ih =>
    have hq := exitLocked_queues _ _ he
    exact ⟨hq.1.trans ih.1, hq.2.1.trans ih.2.1, hq.2.2.trans ih.2.2⟩
  | wait _ hw ih =>
    have hq := waitPass_queues _ _ _ hw
    exact ⟨hq.1.trans ih.1, hq.2.1.trans ih.2.1, hq.2.2.trans ih.2.2⟩

theorem queueRefs_of_empty (s : State)
    (h : s.Queue1 = 0 ∧ s.Queue2 = 0 ∧ s.Queue3 = 0) : queueRefs s = [] := by
  simp [queueRefs, h.1, h.2.1, h.2.2, queueAddrs, loadNode]

/-! ## Theorems: ticks and blocked heads -/

theorem dispatch_ignores_state (beh : State → List Action) (head : State → Nat)
    (hh : ∀ (s : State) (a : Addr), head { s with proc := a } = head s)
    (s : State) (n : QueueNode) (i : Nat) (p : proc)
    (hn : loadNode s.nodes (head s) = .ok n) (hd : n.data = .slot i)
    (hp : s.ptable[i]? = some p) :
    dispatch beh head s =
      swtch beh { s with proc := .slot i
                         ptable := s.ptable.set i { p with state := .RUNNING } } := by
  have hlt : i < s.ptable.length := (List.getElem?_eq_some_iff.mp hp).1
  simp [dispatch, hh, hn, hd, Res.bind, storeProc, loadProc, hp, hlt]

/-- C16 (on the code): the test `state != RUNNABLE` is made once per round;
the hand-over itself (`dispatch`) marks the process of the head RUNNING and
switches to it whatever its state is. In `exLevel2` the process A sleeps
during its first tick: it is SLEEPING when the second tick marks it RUNNING
and switches to it. In `exLevel3 3` A exits during its first tick: it is
ZOMBIE when the second tick marks it RUNNING and switches to it. -/
theorem later_ticks_skip_runnable_test :
    (beginsRound { pc := .level2, s := exLevel2 } = true ∧
        (dispatch sleepsOnce (fun s => s.Queue2) exLevel2).bind
            (fun s => (loadProc s.ptable (.slot 1)).bind fun p => .ok p.state)
          = .ok .SLEEPING ∧
        (ticks sleepsOnce (fun s => s.Queue2) 2 exLevel2).bind
            (fun s => (loadProc s.ptable (.slot 1)).bind fun p => .ok (p.state, s.switched))
          = .ok (.RUNNING, [.slot 1, .slot 1])) ∧
      (beginsRound { pc := .level3, s := exLevel3 3 } = true ∧
        (dispatch exitsOnce (fun s => s.Queue3) (exLevel3 3)).bind
            (fun s => (loadProc s.ptable (.slot 1)).bind fun p => .ok p.state)
          = .ok .ZOMBIE ∧
        (ticks exitsOnce (fun s => s.Queue3) 2 (exLevel3 3)).bind
            (fun s => (loadProc s.ptable (.slot 1)).bind fun p => .ok (p.state, s.switched))
          = .ok (.RUNNING, [.slot 1, .slot 1])) ∧
      (∀ (beh : State → List Action) (s : State) (n : QueueNode) (i : Nat) (p : proc),
        (loadNode s.nodes s.Queue2 = .ok n → n.data = .slot i → s.ptable[i]? = some p →
          dispatch beh (fun s => s.Queue2) s =
            swtch beh { s with proc := .slot i
                               ptable := s.ptable.set i { p with state := .RUNNING } }) ∧
        (loadNode s.nodes s.Queue3 = .ok n → n.data = .slot i → s.ptable[i]? = some p →
          dispatch beh (fun s => s.Queue3) s =
            swtch beh { s with proc := .slot i
                               ptable := s.ptable.set i { p with state := .RUNNING } })) := by
  refine ⟨by decide, by decide, ?_⟩
  intro beh s n i p
  exact ⟨dispatch_ignores_state beh (fun s => s.Queue2) (fun _ _ => rfl) s n i p,
    dispatch_ignores_state beh (fun s => s.Queue3) (fun _ _ => rfl) s n i p⟩

theorem schedStep_blocked (beh : State → List Action) (c : Config) (nd : QueueNode)
    (p : proc) (hn : loadNode c.s.nodes c.head = .ok nd)
    (hp : loadProc c.s.ptable nd.data = .ok p) (hs : p.state ≠ .RUNNABLE) :
    schedStep beh c = .ok c := by
  obtain ⟨pc, s⟩ := c
  have hne : Config.head { pc := pc, s := s } ≠ 0 := by
    intro h0
    rw [h0] at hn
    simp [loadNode] at hn
  cases pc with
  | level1 =>
    simp only [Config.head] at hn hne
    simp [schedStep, level1Iter, hne, hn, hp, hs, Res.bind]
  | level2 =>
    simp only [Config.head] at hn hne
    simp [schedStep, level2Iter, hne, hn, hp, hs, Res.bind]
  | level3 =>
    simp only [Config.head] at hn hne
    simp [schedStep, level3Iter, hne, hn, hp, hs, Res.bind]

/-- C17: when the head of the queue whose loop the dispatcher is in
references a process that is not RUNNABLE, one evaluation of that loop
leaves the dispatcher in the same loop with the same state (process table,
queues and log of switches), and so does any number of evaluations: nothing
is dispatched, neither a later node of the level nor a node of a lower
level. -/
theorem non_runnable_head_blocks (beh : State → List Action) (c : Config) (n : Nat)
    (nd : QueueNode) (p : proc) (hn : loadNode c.s.nodes c.head = .ok nd)
    (hp : loadProc c.s.ptable nd.data = .ok p) (hs : p.state ≠ .RUNNABLE) :
    schedStep beh c = .ok c ∧ schedRun beh n c = .ok c := by
  have h1 := schedStep_blocked beh c nd p hn hp hs
  refine ⟨h1, ?_⟩
  induction n with
  | zero => rfl
  | succ k ih =>
    unfold schedRun
    rw [h1]
    exact ih

/-- Witness of C17: in `exBlocked` the head of level 1 references A, which
is asleep; init, RUNNABLE, is behind it in level 1 and a node waits in
level 2; after any number of loop evaluations nothing has changed. -/
theorem non_runnable_head_blocks_witness :
    queueRefs exBlocked = [.slot 1, .slot 0, .slot 1] ∧
      loadProc exBlocked.ptable (.slot 1) = .ok { exA with state := .SLEEPING } ∧
      schedStep yielding { pc := .level1, s := exBlocked }
        = .ok { pc := .level1, s := exBlocked } ∧
      schedRun yielding 100 { pc := .level1, s := exBlocked }
        = .ok { pc := .level1, s := exBlocked } :=
  ⟨by decide, by decide,
    non_runnable_head_blocks yielding { pc := .level1, s := exBlocked } 100
      { data := .slot 1, boostCounter := 3, next := 2, quantumCounter := 1 }
      { exA with state := .SLEEPING } (by decide) (by decide) (by decide)⟩

/-! ## Theorems: the node of `append` -/

theorem storeNode_nullDeref_iff (nodes : List QueueNode) (a : Nat)
    (f : QueueNode → QueueNode) : storeNode nodes a f = .fault .nullDeref ↔ a = 0 := by
  cases a with
  | zero => simp [storeNode]
  | succ k =>
    have hk : k + 1 ≠ 0 := Nat.succ_ne_zero k
    simp only [hk, iff_false]
    intro hst
    cases h : nodes[k]? with
    | none => simp [storeNode, h] at hst
    | some n => simp [storeNode, h] at hst

/-- C18 (on the code): a store to a node faults as a null dereference
exactly when the node pointer is null, and that is how `append` ends for
every state, process and level: the node it writes is the null reference.
Two successive appends do not produce two nodes; the first one already
produces no state. At boot, `append` for slot 0 and level 1 ends so. -/
theorem append_node_is_null :
    (∀ (nodes : List QueueNode) (a : Nat) (f : QueueNode → QueueNode),
        storeNode nodes a f = .fault .nullDeref ↔ a = 0) ∧
      (∀ (s : State) (p : Addr) (L : Int),
        (s.writeNode 0 fun n => { n with data := p }) = .fault .nullDeref ∧
        append s p L = .fault .nullDeref ∧
        (append s p L).bind (fun s1 => append s1 p L) = .fault .nullDeref) ∧
      append (bootState 2) (.slot 0) 1 = .fault .nullDeref := by
  refine ⟨storeNode_nullDeref_iff, ?_, by decide⟩
  intro s p L
  refine ⟨by simp [State.writeNode, storeNode, Res.bind], append_fault s p L, ?_⟩
  rw [append_fault]
  rfl

/-! ## Theorems: loop order, kill of a free slot, queue entries of a round -/

/-- C8 (on the code): pid 0 is the pid of no live process of the table
`[exInit, exA, exUnused]`, yet `kill 0` returns 0 and sets `killed` in the
UNUSED slot; the allocation that takes this slot next leaves `killed` as it
is, so the new process (pid 4) starts with `killed = 1`. The same happens
with the pid 1 left in a slot whose allocation failed (`exPid3`). Only when
no slot at all holds the pid does `kill` return -1 and change nothing. -/
theorem kill_zero_hits_unused_slot :
    ((∀ p ∈ [exInit, exA, exUnused], p.state ≠ .UNUSED → p.pid ≠ 0) ∧
        kill 0 [exInit, exA, exUnused] =
          ([exInit, exA, { exUnused with killed := 1 }], 0) ∧
        ¬ (kill 0 [exInit, exA, exUnused] = ([exInit, exA, exUnused], -1)) ∧
        (allocSlot exAfterKillZero).map
            (fun r => (r.2, (r.1.ptable[r.2]?).map fun p => (p.state, p.pid, p.killed)))
          = some (2, some (.EMBRYO, 4, 1))) ∧
      ((∀ p ∈ exPid3.ptable, p.state ≠ .UNUSED → p.pid ≠ 1) ∧
        kill 1 exPid3.ptable =
          ([{ exUnused with pid := 1, queueName := 1, quantumSize := 10, killed := 1 },
            { exUnused with state := .EMBRYO, pid := 2, queueName := 1,
                            quantumSize := 10 }], 0)) ∧
      (∀ (t : List proc) (pid : Int), (∀ p ∈ t, p.pid ≠ pid) → kill pid t = (t, -1)) := by
  refine ⟨by decide, by decide, ?_⟩
  intro t pid h
  exact kill_absent_pid t pid h

theorem append_eq_appendWith (s : State) (p : Addr) (L : Int) :
    append s p L = appendWith State.writeNode s p L := rfl

end ProcC
